import Mathlib

/-!
Verification of the response-parsing / normalization pipeline of the CMDC
command-safety checker (`src/components/CommandChecker.tsx`, and the
variant of the same component that takes a `customApiKey` prop).

JavaScript strings are modelled as `List Char`; the string operations of the
component (`match` with the fenced-block regex, `indexOf`, `lastIndexOf`,
`substring`, `trim`, `replace` with the three cleanup regexes) are embedded
as executable functions on `List Char`, and `JSON.parse` as an executable
recursive-descent parser over the JSON grammar.  The React event handler
`analyzeCommand` is embedded as a pure state-transition function recording
which observable effects (prompt construction, network call, loading state,
final analysis/error state) occur.
-/

namespace Cmdc

/-- JavaScript strings, as lists of characters. -/
abbrev JStr := List Char

/-- Shorthand: the character list of a Lean string literal. -/
def cl (s : String) : JStr := s.toList

/-- The backtick character (U+0060). -/
def btick : Char := '\x60'

/-- The JavaScript `\s` character class (also the set trimmed by
`String.prototype.trim`): ASCII whitespace plus the Unicode space
characters, line separators and the BOM. -/
def isJsWs (c : Char) : Bool :=
  c = ' ' || c = '\x09' || c = '\n' || c = '\x0b' || c = '\x0c' || c = '\x0d' ||
  c = '\u00A0' || c = '\u1680' || ('\u2000' ≤ c && c ≤ '\u200A') ||
  c = '\u2028' || c = '\u2029' || c = '\u202F' || c = '\u205F' ||
  c = '\u3000' || c = '\uFEFF'

/-- Drop leading JS whitespace. -/
def trimLead (s : JStr) : JStr := s.dropWhile isJsWs

/-- Drop trailing JS whitespace. -/
def trimTrail (s : JStr) : JStr := (s.reverse.dropWhile isJsWs).reverse

/-- JavaScript `String.prototype.trim`. -/
def jsTrim (s : JStr) : JStr := trimTrail (trimLead s)

/-- Test whether `s` begins with the pattern `pat`. -/
def startsWithL : JStr → JStr → Bool
  | [], _ => true
  | _ :: _, [] => false
  | p :: ps, c :: cs => p = c && startsWithL ps cs

/-- Does the text begin with three backticks? -/
def startsTriple (s : JStr) : Bool :=
  match s with
  | c1 :: c2 :: c3 :: _ => c1 = btick && c2 = btick && c3 = btick
  | _ => false

/-- Does the text end with three backticks? (Three backticks read the same
in both directions, so we test the reversed text.) -/
def endsTriple (s : JStr) : Bool := startsTriple s.reverse

/-- Drop the last `n` characters. -/
def dropLastN (n : Nat) (s : JStr) : JStr := (s.reverse.drop n).reverse

/-- Index of the first character satisfying `p`, if any. -/
def firstIdx (p : Char → Bool) : JStr → Option Nat
  | [] => none
  | c :: rest => if p c then some 0 else (firstIdx p rest).map (· + 1)

/-- JavaScript `String.prototype.indexOf` for a single character:
the index of its first occurrence, or `-1`. -/
def jsIndexOf (s : JStr) (c : Char) : Int :=
  match firstIdx (· = c) s with
  | some n => (n : Int)
  | none => -1

/-- JavaScript `String.prototype.lastIndexOf` for a single character:
the index of its last occurrence, or `-1`. -/
def jsLastIndexOf (s : JStr) (c : Char) : Int :=
  match firstIdx (· = c) s.reverse with
  | some n => (s.length : Int) - 1 - (n : Int)
  | none => -1

/-- JavaScript `String.prototype.substring`: both arguments are clamped to
`[0 , length]` and swapped when `start > end`. -/
def jsSubstring (s : JStr) (a b : Int) : JStr :=
  let len : Int := (s.length : Int)
  let a1 := min (max a 0) len
  let b1 := min (max b 0) len
  let lo := min a1 b1
  let hi := max a1 b1
  (s.drop lo.toNat).take (hi - lo).toNat

/-! ### The fenced-code-block regex

The component first runs ``text.match(/```(?:json)?\s*([\s\S]*?)\s*```/)``.
Operationally (leftmost match, greedy optional tag, lazy body): scan for the
first three-backtick opening that is followed, after an optional literal
`json` tag, by another three-backtick occurrence; the capture is the text
between them with surrounding `\s` stripped (the `\s*` on both sides of the
lazy group absorb exactly the whitespace margins up to the first closing
occurrence). -/

/-- Skip the opening delimiter: three backticks plus an optional `json` tag. -/
def afterOpen (s : JStr) : JStr :=
  let t := s.drop 3
  if startsWithL (cl ("json")) t then t.drop 4 else t

/-- Split the text at the first three-backtick occurrence: returns the part
before it and the remainder (which still starts with the backticks). -/
def splitAtTriple : JStr → Option (JStr × JStr)
  | [] => none
  | c :: rest =>
    if startsTriple (c :: rest) then some ([], c :: rest)
    else (splitAtTriple rest).map (fun pr => (c :: pr.1, pr.2))

/-- The capture of the fenced-block regex on `text`, if it matches:
the first opening fence with a later closing fence yields the enclosed
text, whitespace-trimmed (per the `\s*` margins in the pattern). -/
def findFenced : JStr → Option JStr
  | [] => none
  | c :: rest =>
    if startsTriple (c :: rest) then
      match splitAtTriple (afterOpen (c :: rest)) with
      | some pr => some (jsTrim pr.1)
      | none => findFenced rest
    else findFenced rest

/-- The brace-scan fallback, exactly as written in the component:

```js
const jsonStart = text.indexOf('{');
const jsonEnd = text.lastIndexOf('}') + 1;
if (jsonStart !== -1 && jsonEnd !== -1) {
  jsonString = text.substring(jsonStart, jsonEnd).trim();
}
```

Note the `+ 1` before the `!== -1` comparison: `jsonEnd` is never `-1`. -/
def braceScanString (text : JStr) : JStr :=
  let jsonStart : Int := jsIndexOf text '\x7b'
  let jsonEnd : Int := jsLastIndexOf text '\x7d' + 1
  if jsonStart ≠ -1 ∧ jsonEnd ≠ -1 then jsTrim (jsSubstring text jsonStart jsonEnd)
  else []

/-- The extraction step of `analyzeCommand`: use the fenced-block capture when
the match exists and the capture is truthy (non-empty), otherwise fall back to
the brace scan; `jsonString` remains the empty string when neither applies. -/
def extractJsonString (text : JStr) : JStr :=
  match findFenced text with
  | some c => if c = [] then braceScanString text else jsTrim c
  | none => braceScanString text

/-- Model of `replace(/^\s*```json\s*/, '')`: if the text starts (after whitespace)
with a literal ```` ```json ````, remove it together with the whitespace on
both sides of it; otherwise leave the text unchanged. -/
def clean1 (s : JStr) : JStr :=
  let s1 := trimLead s
  if startsWithL (cl ("```json")) s1 then trimLead (s1.drop 7) else s

/-- Model of `replace(/^\s*```\s*/, '')`. -/
def clean2 (s : JStr) : JStr :=
  let s1 := trimLead s
  if startsWithL (cl ("```")) s1 then trimLead (s1.drop 3) else s

/-- Model of `replace(/\s*```\s*$/, '')`: if the text ends (before whitespace) with
three backticks, remove them together with the whitespace on both sides;
otherwise leave the text unchanged. -/
def clean3 (s : JStr) : JStr :=
  let s1 := trimTrail s
  if endsTriple s1 then trimTrail (dropLastN 3 s1) else s

/-- The whole cleanup chain applied to the extracted `jsonString`:
the three `replace` calls followed by the final `.trim()`. -/
def cleanAll (s : JStr) : JStr := jsTrim (clean3 (clean2 (clean1 s)))

/-! ### JSON values and `JSON.parse`

`JSON.parse` is embedded as an executable recursive-descent parser.  It is
structural in a fuel counter (seeded with the input length plus one, which
the completeness lemmas below show is always enough), so every definition
reduces in the kernel.  Numbers are kept exact as `mantissa * 10 ^ exp`.
Strings are lexed to UTF-16 code units first (as JavaScript sees them) and
surrogate pairs from `\u` escapes are then recombined; a lone surrogate,
which a Lean `Char` cannot carry, maps to U+FFFD (no input in this
development contains one).  A duplicate object key overwrites the value at
the original position of the key, as in JavaScript. -/

/-- A parsed JSON value. -/
inductive Json where
  | null : Json
  | bool : Bool → Json
  | num : Int → Int → Json
  | str : JStr → Json
  | arr : List Json → Json
  | obj : List (JStr × Json) → Json

/-- JSON-grammar whitespace (only these four, unlike JavaScript `\s`). -/
def isJsonWs (c : Char) : Bool :=
  c = ' ' || c = '\x09' || c = '\n' || c = '\x0d'

/-- Skip JSON-grammar whitespace. -/
def skipJsonWs : JStr → JStr
  | c :: rest => if isJsonWs c then skipJsonWs rest else c :: rest
  | [] => []

/-- The code unit denoted by a single-character escape, if legal. -/
def escUnit (c : Char) : Option Nat :=
  if c = '"' then some 0x22
  else if c = '\\' then some 0x5c
  else if c = '/' then some 0x2f
  else if c = 'b' then some 0x08
  else if c = 'f' then some 0x0c
  else if c = 'n' then some 0x0a
  else if c = 'r' then some 0x0d
  else if c = 't' then some 0x09
  else none

/-- Value of a hexadecimal digit character. -/
def hexVal (c : Char) : Option Nat :=
  if '0' ≤ c && c ≤ '9' then some (c.toNat - 48)
  else if 'a' ≤ c && c ≤ 'f' then some (c.toNat - 87)
  else if 'A' ≤ c && c ≤ 'F' then some (c.toNat - 55)
  else none

/-- Fold hex digit values into a number, most significant first. -/
def hexFold (ds : List Nat) : Nat := ds.foldl (fun a d => 16 * a + d) 0

/-- Lexer state inside a JSON string body. -/
inductive SMode where
  | plain : SMode
  | esc : SMode
  | uni : List Nat → SMode

/-- Lex a JSON string body (after the opening quote) into UTF-16 code
units, consuming exactly one character per step: `plain` is ordinary text,
`esc` follows a backslash, `uni ds` is inside a `\u` escape with the hex
digit values `ds` read so far.  Unescaped control characters are rejected,
as in `JSON.parse`. -/
def strBody : SMode → JStr → Option (List Nat × JStr)
  | _, [] => none
  | .plain, c :: rest =>
    if c = '"' then some ([], rest)
    else if c = '\\' then strBody .esc rest
    else if c.toNat < 0x20 then none
    else (strBody .plain rest).map (fun pr => (c.toNat :: pr.1, pr.2))
  | .esc, c :: rest =>
    if c = 'u' then strBody (.uni []) rest
    else
      match escUnit c with
      | some n => (strBody .plain rest).map (fun pr => (n :: pr.1, pr.2))
      | none => none
  | .uni ds, c :: rest =>
    match hexVal c with
    | some h =>
      if ds.length = 3 then
        (strBody .plain rest).map (fun pr => (hexFold (ds ++ [h]) :: pr.1, pr.2))
      else strBody (.uni (ds ++ [h])) rest
    | none => none

/-- The scalar for a code unit outside any surrogate pair: a lone
surrogate becomes U+FFFD (representable neither as a Lean `Char` nor as a
Unicode scalar value), everything else is itself. -/
def uChar (u : Nat) : Char :=
  if 0xD800 ≤ u ∧ u < 0xE000 then Char.ofNat 0xFFFD else Char.ofNat u

/-- Recombine UTF-16 code units into characters: a high surrogate followed
by a low surrogate forms one supplementary character. -/
def pairUnits : List Nat → JStr
  | [] => []
  | [u] => [uChar u]
  | u :: u2 :: rest =>
    if 0xD800 ≤ u ∧ u < 0xDC00 then
      if 0xDC00 ≤ u2 ∧ u2 < 0xE000 then
        Char.ofNat (0x10000 + (u - 0xD800) * 0x400 + (u2 - 0xDC00)) :: pairUnits rest
      else Char.ofNat 0xFFFD :: pairUnits (u2 :: rest)
    else uChar u :: pairUnits (u2 :: rest)

/-- Numeric value of a run of decimal digit characters. -/
def digitsNat (ds : JStr) : Nat := ds.foldl (fun a c => 10 * a + (c.toNat - 48)) 0

/-- Validity of the integer part of a JSON number: one or more digits, with no
leading zero unless the part is exactly `0`. -/
def intPartOk : JStr → Bool
  | [] => false
  | ['0'] => true
  | '0' :: _ :: _ => false
  | _ => true

/-- Finish lexing a number after its digits: the optional exponent.
Returns `(mantissa, base-ten exponent, rest)`. -/
def finishNum (neg : Bool) (ip fp : JStr) (s : JStr) : Option (Int × Int × JStr) :=
  let m : Int := Int.ofNat (digitsNat (ip ++ fp))
  let m1 : Int := if neg then -m else m
  match s with
  | 'e' :: t | 'E' :: t =>
    let spr : Int × JStr := match t with
      | '+' :: u => (1, u)
      | '-' :: u => (-1, u)
      | _ => (1, t)
    let epr := spr.2.span (fun c => c.isDigit)
    if epr.1 = [] then none
    else some (m1, spr.1 * Int.ofNat (digitsNat epr.1) - (fp.length : Int), epr.2)
  | _ => some (m1, -(fp.length : Int), s)

/-- Lex a JSON number per the RFC 8259 grammar:
`-?(0|[1-9][0-9]*)(\.[0-9]+)?([eE][-+]?[0-9]+)?`. -/
def lexNumber (s : JStr) : Option (Int × Int × JStr) :=
  let pr : Bool × JStr := match s with
    | '-' :: t => (true, t)
    | _ => (false, s)
  let ipr := pr.2.span (fun c => c.isDigit)
  if intPartOk ipr.1 then
    match ipr.2 with
    | '.' :: t =>
      let fpr := t.span (fun c => c.isDigit)
      if fpr.1 = [] then none else finishNum pr.1 ipr.1 fpr.1 fpr.2
    | _ => finishNum pr.1 ipr.1 [] ipr.2
  else none

/-- Insert a member into an object under construction: a repeated key
overwrites the value at the original position of the key (JavaScript object
semantics), a new key is appended. -/
def setMember : List (JStr × Json) → JStr → Json → List (JStr × Json)
  | [], k, v => [(k, v)]
  | (k0, v0) :: t, k, v =>
    if k0 = k then (k0, v) :: t else (k0, v0) :: setMember t k v

/-- What the parser is currently reading: a value, the members of an
object (with those already read), or the elements of an array. -/
inductive PMode where
  | val : PMode
  | members : List (JStr × Json) → PMode
  | elems : List Json → PMode

/-- The recursive-descent core of `JSON.parse`, structural in the fuel:
parses one value / member list / element list and returns it with the
unconsumed remainder. -/
def parseStep : Nat → PMode → JStr → Option (Json × JStr)
  | 0, _, _ => none
  | f + 1, .val, s =>
    match skipJsonWs s with
    | '\x7b' :: r =>
      (match skipJsonWs r with
       | '\x7d' :: r2 => some (.obj [], r2)
       | r2 => parseStep f (.members []) r2)
    | '[' :: r =>
      (match skipJsonWs r with
       | ']' :: r2 => some (.arr [], r2)
       | r2 => parseStep f (.elems []) r2)
    | '"' :: r =>
      (match strBody .plain r with
       | some pr => some (.str (pairUnits pr.1), pr.2)
       | none => none)
    | 't' :: 'r' :: 'u' :: 'e' :: r => some (.bool true, r)
    | 'f' :: 'a' :: 'l' :: 's' :: 'e' :: r => some (.bool false, r)
    | 'n' :: 'u' :: 'l' :: 'l' :: r => some (.null, r)
    | c :: r =>
      if c = '-' || c.isDigit then
        match lexNumber (c :: r) with
        | some mer => some (.num mer.1 mer.2.1, mer.2.2)
        | none => none
      else none
    | [] => none
  | f + 1, .members acc, s =>
    match skipJsonWs s with
    | '"' :: r =>
      (match strBody .plain r with
       | some pr =>
         (match skipJsonWs pr.2 with
          | ':' :: r3 =>
            (match parseStep f .val r3 with
             | some vr =>
               (match skipJsonWs vr.2 with
                | ',' :: r5 => parseStep f (.members (setMember acc (pairUnits pr.1) vr.1)) r5
                | '\x7d' :: r5 => some (.obj (setMember acc (pairUnits pr.1) vr.1), r5)
                | _ => none)
             | none => none)
          | _ => none)
       | none => none)
    | _ => none
  | f + 1, .elems acc, s =>
    match parseStep f .val s with
    | some vr =>
      (match skipJsonWs vr.2 with
       | ',' :: r2 => parseStep f (.elems (acc ++ [vr.1])) r2
       | ']' :: r2 => some (.arr (acc ++ [vr.1]), r2)
       | _ => none)
    | none => none

/-- `JSON.parse`: parse one value, allow trailing whitespace only. -/
def jsonParse (s : JStr) : Option Json :=
  match parseStep (s.length + 1) .val s with
  | some vr => if skipJsonWs vr.2 = [] then some vr.1 else none
  | none => none

/-! ### The normalizer and the event handler -/

/-- A thrown JavaScript error, as the `catch` block sees it. -/
structure JsError where
  name : JStr
  message : JStr
deriving DecidableEq

/-- Message of the error thrown when no candidate JSON substring was found. -/
def couldNotParseMsg : JStr := cl ("Could not parse analysis from response")

/-- The `name` of a JavaScript `SyntaxError` (thrown by `JSON.parse`). -/
def syntaxErrorName : JStr := cl ("SyntaxError")

/-- A `JSON.parse` syntax error (its message is engine-specific and the
component never reads it, only the `name`). -/
def jsonSyntaxError : JsError := ⟨syntaxErrorName, cl ("Unexpected token in JSON")⟩

/-- The try-block body of `analyzeCommand` from the model reply onward:
extract the candidate JSON substring, clean it, and parse it.  Returns the
parsed value, or the error the corresponding JavaScript code throws. -/
def analyzeCore (text : JStr) : Except JsError Json :=
  let jsonString := extractJsonString text
  if jsonString = [] then Except.error ⟨cl ("Error"), couldNotParseMsg⟩
  else
    match jsonParse (cleanAll jsonString) with
    | some v => Except.ok v
    | none => Except.error jsonSyntaxError

/-- The fixed message shown when the caught error is a `SyntaxError`. -/
def invalidJsonDisplay : JStr :=
  cl ("Failed to analyze command: Invalid JSON format in AI response. This may be due to an incomplete or malformed response from the AI service. Try running the analysis again.")

/-- The generic failure message prefix. -/
def failedPrefix : JStr := cl ("Failed to analyze command: ")

/-- The catch block: a `SyntaxError` gets the fixed retry message, any
other error the generic message carrying the message of the error itself. -/
def errorDisplay (e : JsError) : JStr :=
  if e.name = syntaxErrorName then invalidJsonDisplay else failedPrefix ++ e.message

/-- Validation message for an empty (after trimming) command. -/
def emptyCommandMsg : JStr := cl ("Please enter a command to analyze")

/-- Validation message for a missing API key. -/
def missingKeyMsg : JStr :=
  cl ("Gemini API key is not set. Please add it to your environment variables or configure a custom key in settings.")

/-- JavaScript truthiness of `string | null | undefined`: `null`,
`undefined` and the empty string are falsy. -/
def truthyOptStr : Option JStr → Bool
  | none => false
  | some s => !s.isEmpty

/-- Model of `customApiKey || import.meta.env.VITE_GEMINI_API_KEY`. -/
def selectKey (customApiKey envKey : Option JStr) : Option JStr :=
  if truthyOptStr customApiKey then customApiKey else envKey

/-- The analysis quality tier selected by the user. -/
inductive Tier where
  | fast : Tier
  | accurate : Tier

/-- Which Gemini model each tier uses. -/
def modelNameFor : Tier → JStr
  | .fast => cl ("gemini-2.5-flash-lite")
  | .accurate => cl ("gemini-2.5-flash")

/-- Everything up to the interpolated command in the prompt template. -/
def promptPrefix : JStr :=
  cl ("\n        Analyze the following command for safety and explain what it does:\n\n        Command: ")

/-- Everything after the interpolated command in the prompt template. -/
def promptSuffix : JStr :=
  cl ("\n\n        Please provide the following:\n        1. A short explanation of what this command does (maximum 4 sentences, each as a separate bullet point, using markdown formatting where appropriate)\n        2. An assessment of its safety (safe, potentially dangerous, extremely dangerous)\n        3. A list of specific risks associated with running this command (max 4 items, using markdown formatting where appropriate)\n        4. Recommendations on whether it\x27s safe to execute (max 4 items, using markdown formatting where appropriate)\n\n        Format your response as JSON with these fields:\n        \x7b\n          \"explanation\": \"Short explanation with max 4 sentences separated by periods. Each sentence should be concise. Use markdown formatting (bold, code, etc.) where appropriate.\",\n          \"safety\": \"Safe / Potentially Dangerous / Extremely Dangerous\",\n          \"risks\": [\"risk1 with possible markdown formatting\", \"risk2 with possible markdown formatting\", \"risk3\", \"risk4 max\"],\n          \"recommendations\": [\"recommendation1 with possible markdown formatting\", \"recommendation2 with possible markdown formatting\", \"recommendation3\", \"recommendation4 max\"]\n        \x7d\n      ")

/-- The Prompt Builder: the template literal with the command interpolated. -/
def buildPrompt (command : JStr) : JStr := promptPrefix ++ command ++ promptSuffix

/-- The observable outcome of one `analyzeCommand` invocation: the final
component state (`analysis`, `error`, `loading`) plus a record of what
happened on the way — whether the loading state was ever entered, the
prompt built, whether and with which key/model the provider was called,
and the component state in force at the moment of the call. -/
structure AnalyzeResult where
  analysis : Option Json
  error : Option JStr
  loading : Bool
  enteredLoading : Bool
  promptBuilt : Option JStr
  networkCalled : Bool
  networkKey : Option JStr
  modelUsed : Option JStr
  callState : Option (Option Json × Option JStr × Bool)

/-- The `analyzeCommand` event handler as a state transition.  Inputs: the
selected tier, the current command text, the `customApiKey` prop, the
environment key, the analysis shown before the click, and the reply (or
thrown error) of the provider should it be called.  The handler validates, picks
the key, clears state, calls the provider, and normalizes — mirroring the
early returns, the `try`/`catch`, and the `finally` of the source. -/
def analyzeCommand (selectedModelType : Tier) (command : JStr)
    (customApiKey envKey : Option JStr) (prevAnalysis : Option Json)
    (provider : Except JsError JStr) : AnalyzeResult :=
  if jsTrim command = [] then
    ⟨prevAnalysis, some emptyCommandMsg, false, false, none, false, none, none, none⟩
  else
    let apiKey := selectKey customApiKey envKey
    if truthyOptStr apiKey = false then
      ⟨prevAnalysis, some missingKeyMsg, false, false, none, false, none, none, none⟩
    else
      let modelName := modelNameFor selectedModelType
      let prompt := buildPrompt command
      match provider with
      | .error e =>
        ⟨none, some (errorDisplay e), false, true, some prompt, true, apiKey,
         some modelName, some (none, none, true)⟩
      | .ok text =>
        match analyzeCore text with
        | .ok v =>
          ⟨some v, none, false, true, some prompt, true, apiKey,
           some modelName, some (none, none, true)⟩
        | .error e =>
          ⟨none, some (errorDisplay e), false, true, some prompt, true, apiKey,
           some modelName, some (none, none, true)⟩

/-- Value of a key in a parsed JSON object, if the value is an object and
the key is present. -/
def memberLookup : List (JStr × Json) → JStr → Option Json
  | [], _ => none
  | (k0, v0) :: t, k => if k0 = k then some v0 else memberLookup t k

/-- Field access on a parsed JSON value. -/
def objLookup (v : Json) (k : JStr) : Option Json :=
  match v with
  | .obj ms => memberLookup ms k
  | _ => none

/-! ### Rendering a record as JSON (the harness side of the claims)

The testable properties of the spec speak of "rendering a record as its JSON
serialization" (optionally wrapped in a fenced code block).  The renderer
below follows `JSON.stringify`: fields are emitted in declaration order,
with `"`, `\` and control characters escaped and nothing else changed. -/

/-- The lowercase hex digit character for `n < 16`. -/
def hexDigitChar (n : Nat) : Char :=
  if n < 10 then Char.ofNat (48 + n) else Char.ofNat (87 + n)

/-- JSON-escape one character, as `JSON.stringify` does: the two
metacharacters and the named control characters get short escapes, the
remaining control characters a `\u00XX` escape, everything else is kept. -/
def escChar (c : Char) : JStr :=
  if c = '"' then ['\\', '"']
  else if c = '\\' then ['\\', '\\']
  else if c = '\x08' then ['\\', 'b']
  else if c = '\x09' then ['\\', 't']
  else if c = '\n' then ['\\', 'n']
  else if c = '\x0c' then ['\\', 'f']
  else if c = '\x0d' then ['\\', 'r']
  else if c.toNat < 0x20 then
    ['\\', 'u', '0', '0', hexDigitChar (c.toNat / 16), hexDigitChar (c.toNat % 16)]
  else [c]

/-- JSON-escape a string body. -/
def escapeStr : JStr → JStr
  | [] => []
  | c :: rest => escChar c ++ escapeStr rest

/-- A string as a quoted JSON string literal. -/
def jsonQuote (s : JStr) : JStr := '"' :: (escapeStr s ++ ['"'])

/-- Join pieces with commas between them. -/
def sepByComma : List JStr → JStr
  | [] => []
  | [x] => x
  | x :: y :: t => x ++ ',' :: sepByComma (y :: t)

/-- A field value of the analysis record: a string or an array of strings. -/
inductive FieldVal where
  | fs : JStr → FieldVal
  | fa : List JStr → FieldVal

/-- Render a field value. -/
def renderFieldVal : FieldVal → JStr
  | .fs s => jsonQuote s
  | .fa xs => '[' :: (sepByComma (xs.map jsonQuote) ++ [']'])

/-- The JSON value a field value denotes. -/
def fieldValJson : FieldVal → Json
  | .fs s => .str s
  | .fa xs => .arr (xs.map .str)

/-- Render one `key: value` member. -/
def renderMember (m : JStr × FieldVal) : JStr :=
  jsonQuote m.1 ++ ':' :: renderFieldVal m.2

/-- Render an object from its member list. -/
def renderObj (ms : List (JStr × FieldVal)) : JStr :=
  '\x7b' :: (sepByComma (ms.map renderMember) ++ ['\x7d'])

/-- The JSON value an object member list denotes. -/
def membersJson (ms : List (JStr × FieldVal)) : Json :=
  .obj (ms.map (fun m => (m.1, fieldValJson m.2)))

/-- The analysis record (the `CommandAnalysis` interface). -/
structure CommandAnalysis where
  explanation : JStr
  safety : JStr
  risks : List JStr
  recommendations : List JStr

/-- The four members of a record, in interface declaration order. -/
def recordMembers (r : CommandAnalysis) : List (JStr × FieldVal) :=
  [(cl ("explanation"), .fs r.explanation), (cl ("safety"), .fs r.safety),
   (cl ("risks"), .fa r.risks), (cl ("recommendations"), .fa r.recommendations)]

/-- A record as compact JSON text. -/
def renderRecord (r : CommandAnalysis) : JStr := renderObj (recordMembers r)

/-- The JSON value of a record. -/
def recordJson (r : CommandAnalysis) : Json := membersJson (recordMembers r)

/-- A record rendered as JSON inside a fenced code block, with or without
the `json` language tag. -/
def renderFenced (tagged : Bool) (r : CommandAnalysis) : JStr :=
  (if tagged then cl ("```json\n") else cl ("```\n")) ++ renderRecord r ++ cl ("\n```")

/-- No character of the string is a backtick. -/
abbrev noBacktick (s : JStr) : Prop := ∀ c ∈ s, c ≠ btick

/-- No character of the string is a brace or a backtick: such text cannot
disturb either extraction path when it surrounds the payload. -/
abbrev inertProse (s : JStr) : Prop :=
  ∀ c ∈ s, c ≠ '\x7b' ∧ c ≠ '\x7d' ∧ c ≠ btick

/-- All four fields of the record are backtick-free. -/
abbrev recordNoBacktick (r : CommandAnalysis) : Prop :=
  noBacktick r.explanation ∧ noBacktick r.safety ∧
  (∀ x ∈ r.risks, noBacktick x) ∧ (∀ x ∈ r.recommendations, noBacktick x)

/-! ### Trimming, scanning and cleanup lemmas -/

theorem dropWhile_of_head {p : Char → Bool} {c : Char} {t : JStr} (h : p c = false) :
    List.dropWhile p (c :: t) = c :: t := by
  simp [List.dropWhile, h]

theorem dropWhile_append_all {p : Char → Bool} {w : JStr}
    (hw : ∀ c ∈ w, p c = true) (z : JStr) :
    List.dropWhile p (w ++ z) = List.dropWhile p z := by
  induction w with
  | nil => rfl
  | cons c t ih =>
    simp only [List.cons_append, List.dropWhile, hw c (by simp)]
    exact ih (fun x hx => hw x (by simp [hx]))

theorem dropWhile_all {p : Char → Bool} {w : JStr} (hw : ∀ c ∈ w, p c = true) :
    List.dropWhile p w = [] := by
  have := dropWhile_append_all hw ([] : JStr)
  simpa using this

theorem trimLead_cons {c : Char} {t : JStr} (h : isJsWs c = false) :
    trimLead (c :: t) = c :: t := dropWhile_of_head h

theorem trimLead_pad {w1 : JStr} (hw1 : ∀ c ∈ w1, isJsWs c = true)
    {c : Char} (h : isJsWs c = false) (z : JStr) :
    trimLead (w1 ++ c :: z) = c :: z := by
  unfold trimLead
  rw [dropWhile_append_all hw1, dropWhile_of_head h]

theorem trimTrail_pad {w2 : JStr} (hw2 : ∀ c ∈ w2, isJsWs c = true)
    {c : Char} (h : isJsWs c = false) (y : JStr) :
    trimTrail ((y ++ [c]) ++ w2) = y ++ [c] := by
  unfold trimTrail
  rw [List.reverse_append, List.reverse_append]
  simp only [List.reverse_cons, List.reverse_nil, List.nil_append, List.singleton_append]
  rw [dropWhile_append_all (fun x hx => hw2 x (by simpa using hx)),
      dropWhile_of_head h]
  simp

theorem trimTrail_snoc {c : Char} {t : JStr} (h : isJsWs c = false) :
    trimTrail (t ++ [c]) = t ++ [c] := by
  have := @trimTrail_pad [] (by simp) c h t
  simpa using this

/-- Trimming strips exactly the whitespace margins around a text whose own
two ends are not whitespace. -/
theorem jsTrim_padded {w1 w2 : JStr} (m : JStr) {c1 c2 : Char}
    (h1 : isJsWs c1 = false) (h2 : isJsWs c2 = false)
    (hw1 : ∀ c ∈ w1, isJsWs c = true) (hw2 : ∀ c ∈ w2, isJsWs c = true) :
    jsTrim (w1 ++ (c1 :: (m ++ [c2])) ++ w2) = c1 :: (m ++ [c2]) := by
  unfold jsTrim
  rw [List.append_assoc, List.cons_append, trimLead_pad hw1 h1]
  have hshape : c1 :: ((m ++ [c2]) ++ w2) = ((c1 :: m) ++ [c2]) ++ w2 := by simp
  rw [hshape, trimTrail_pad hw2 h2]
  simp

theorem jsTrim_braced (m : JStr) {c1 c2 : Char}
    (h1 : isJsWs c1 = false) (h2 : isJsWs c2 = false) :
    jsTrim (c1 :: (m ++ [c2])) = c1 :: (m ++ [c2]) := by
  have := @jsTrim_padded [] [] m c1 c2 h1 h2 (by simp) (by simp)
  simpa using this

theorem jsTrim_all_ws {w : JStr} (hw : ∀ c ∈ w, isJsWs c = true) : jsTrim w = [] := by
  unfold jsTrim trimLead
  rw [dropWhile_all hw]
  rfl

theorem startsWithL_cons_ne {p c : Char} {ps cs : JStr} (h : p ≠ c) :
    startsWithL (p :: ps) (c :: cs) = false := by
  simp [startsWithL, h]

theorem startsTriple_cons_ne {c : Char} {t : JStr} (h : c ≠ btick) :
    startsTriple (c :: t) = false := by
  match t with
  | [] => rfl
  | [a] => rfl
  | a :: b :: t2 => simp [startsTriple, h]

/-- The cleanup chain is the identity on any text that begins and ends with
a character that is neither whitespace nor a backtick — in particular on a
JSON object literal. -/
theorem cleanAll_braced (m : JStr) {c1 c2 : Char}
    (h1w : isJsWs c1 = false) (h2w : isJsWs c2 = false)
    (h1b : c1 ≠ btick) (h2b : c2 ≠ btick) :
    cleanAll (c1 :: (m ++ [c2])) = c1 :: (m ++ [c2]) := by
  have hjson : cl ("```json") = btick :: btick :: btick :: 'j' :: 's' :: 'o' :: 'n' :: [] := rfl
  have htq : cl ("```") = btick :: btick :: btick :: [] := rfl
  have hc1 : clean1 (c1 :: (m ++ [c2])) = c1 :: (m ++ [c2]) := by
    simp only [clean1]
    rw [trimLead_cons h1w, hjson, startsWithL_cons_ne (fun e => h1b e.symm)]
    simp
  have hc2 : clean2 (c1 :: (m ++ [c2])) = c1 :: (m ++ [c2]) := by
    simp only [clean2]
    rw [trimLead_cons h1w, htq, startsWithL_cons_ne (fun e => h1b e.symm)]
    simp
  have htt : trimTrail (c1 :: (m ++ [c2])) = c1 :: (m ++ [c2]) := by
    have := @trimTrail_snoc c2 (c1 :: m) h2w
    simpa using this
  have hrev : (c1 :: (m ++ [c2])).reverse = c2 :: ((c1 :: m).reverse) := by
    have hx : c1 :: (m ++ [c2]) = (c1 :: m) ++ [c2] := by simp
    rw [hx, List.reverse_append]
    simp
  have hc3 : clean3 (c1 :: (m ++ [c2])) = c1 :: (m ++ [c2]) := by
    simp only [clean3, endsTriple]
    rw [htt]
    simp only [hrev, startsTriple_cons_ne h2b]
    simp
  unfold cleanAll
  rw [hc1, hc2, hc3, jsTrim_braced m h1w h2w]

/-! ### String escaping round-trip -/

theorem skipJsonWs_cons {c : Char} {t : JStr} (h : isJsonWs c = false) :
    skipJsonWs (c :: t) = c :: t := by
  simp [skipJsonWs, h]

theorem hexVal_hexDigitChar : ∀ d : Nat, d < 16 → hexVal (hexDigitChar d) = some d := by decide

theorem char_not_surrogate (c : Char) : ¬(0xD800 ≤ c.toNat ∧ c.toNat < 0xE000) := by
  have h : c.val.toNat < 0xd800 ∨ (0xe000 ≤ c.val.toNat ∧ c.val.toNat < 0x110000) := c.valid
  intro hc
  have hv : c.toNat = c.val.toNat := rfl
  rw [hv] at hc
  rcases h with h | h <;> omega

theorem uChar_toNat (c : Char) : uChar c.toNat = c := by
  unfold uChar
  rw [if_neg (char_not_surrogate c)]
  exact Char.ofNat_toNat c

theorem pairUnits_map_toNat : ∀ s : JStr, pairUnits (s.map Char.toNat) = s
  | [] => rfl
  | [c] => by
    simp only [List.map, pairUnits]
    rw [uChar_toNat]
  | c :: c2 :: t => by
    have ih := pairUnits_map_toNat (c2 :: t)
    simp only [List.map, pairUnits] at ih ⊢
    rw [if_neg (fun hc => char_not_surrogate c ⟨hc.1, by omega⟩), uChar_toNat, ih]

theorem strBody_escape : ∀ (s rest : JStr),
    strBody .plain (escapeStr s ++ ('"' :: rest)) = some (s.map Char.toNat, rest)
  | [], rest => by simp [escapeStr, strBody]
  | c :: t, rest => by
    have ih := strBody_escape t rest
    show strBody .plain ((escChar c ++ escapeStr t) ++ ('"' :: rest)) = _
    rw [List.append_assoc]
    by_cases h1 : c = '"'
    · subst h1; simp [escChar, strBody, escUnit, ih]
    by_cases h2 : c = '\\'
    · subst h2; simp [escChar, strBody, escUnit, ih]
    by_cases h3 : c = '\x08'
    · subst h3; simp [escChar, strBody, escUnit, ih]
    by_cases h4 : c = '\x09'
    · subst h4; simp [escChar, strBody, escUnit, ih]
    by_cases h5 : c = '\n'
    · subst h5; simp [escChar, strBody, escUnit, ih]
    by_cases h6 : c = '\x0c'
    · subst h6; simp [escChar, strBody, escUnit, ih]
    by_cases h7 : c = '\x0d'
    · subst h7; simp [escChar, strBody, escUnit, ih]
    by_cases h8 : c.toNat < 0x20
    · have hdiv : c.toNat / 16 < 16 := by omega
      have hmod : c.toNat % 16 < 16 := by omega
      simp only [escChar, if_neg h1, if_neg h2, if_neg h3, if_neg h4, if_neg h5,
        if_neg h6, if_neg h7, if_pos h8, List.cons_append, List.nil_append]
      have h0 : hexVal '0' = some 0 := by decide
      simp only [strBody, hexVal_hexDigitChar _ hdiv, hexVal_hexDigitChar _ hmod]
      simp [hexFold, ih, List.map, h0]
      omega
    · simp only [escChar, if_neg h1, if_neg h2, if_neg h3, if_neg h4, if_neg h5,
        if_neg h6, if_neg h7, if_neg h8, List.cons_append, List.nil_append]
      simp [strBody, h1, h2, h8, ih]

/-! ### Completeness of the parser on rendered records -/

theorem jsonQuote_length (s : JStr) : 2 ≤ (jsonQuote s).length := by
  simp [jsonQuote]

theorem two_le_renderFieldVal (v : FieldVal) : 2 ≤ (renderFieldVal v).length := by
  cases v with
  | fs s => exact jsonQuote_length s
  | fa xs => simp [renderFieldVal]

theorem parseStep_quote (f : Nat) (s rest : JStr) :
    parseStep (f + 1) .val (jsonQuote s ++ rest) = some (.str s, rest) := by
  have hx : jsonQuote s ++ rest = '"' :: (escapeStr s ++ ('"' :: rest)) := by
    simp [jsonQuote]
  rw [hx]
  simp only [parseStep, skipJsonWs_cons (by decide : isJsonWs '"' = false)]
  simp [strBody_escape, pairUnits_map_toNat]

/-- One-step unfolding of the element loop (definitional). -/
theorem parseStep_elems_step (f : Nat) (acc : List Json) (s : JStr) :
    parseStep (f + 1) (.elems acc) s =
      (match parseStep f .val s with
       | some vr =>
         (match skipJsonWs vr.2 with
          | ',' :: r2 => parseStep f (.elems (acc ++ [vr.1])) r2
          | ']' :: r2 => some (.arr (acc ++ [vr.1]), r2)
          | _ => none)
       | none => none) := rfl

/-- One-step unfolding of the member loop (definitional). -/
theorem parseStep_members_step (f : Nat) (acc : List (JStr × Json)) (s : JStr) :
    parseStep (f + 1) (.members acc) s =
      (match skipJsonWs s with
       | '"' :: r =>
         (match strBody .plain r with
          | some pr =>
            (match skipJsonWs pr.2 with
             | ':' :: r3 =>
               (match parseStep f .val r3 with
                | some vr =>
                  (match skipJsonWs vr.2 with
                   | ',' :: r5 => parseStep f (.members (setMember acc (pairUnits pr.1) vr.1)) r5
                   | '\x7d' :: r5 => some (.obj (setMember acc (pairUnits pr.1) vr.1), r5)
                   | _ => none)
                | none => none)
             | _ => none)
          | none => none)
       | _ => none) := rfl

/-- The array branch of a value, when the first element starts with a
non-whitespace character other than `]`. -/
theorem parseStep_val_arr_go (f : Nat) {c0 : Char} (t : JStr)
    (h : isJsonWs c0 = false) (hne : c0 ≠ ']') :
    parseStep (f + 1) .val ('[' :: (c0 :: t)) = parseStep f (.elems []) (c0 :: t) := by
  show (match skipJsonWs ('[' :: (c0 :: t)) with
        | '\x7b' :: r =>
          (match skipJsonWs r with
           | '\x7d' :: r2 => some (Json.obj [], r2)
           | r2 => parseStep f (.members []) r2)
        | '[' :: r =>
          (match skipJsonWs r with
           | ']' :: r2 => some (Json.arr [], r2)
           | r2 => parseStep f (.elems []) r2)
        | '"' :: r =>
          (match strBody .plain r with
           | some pr => some (Json.str (pairUnits pr.1), pr.2)
           | none => none)
        | 't' :: 'r' :: 'u' :: 'e' :: r => some (Json.bool true, r)
        | 'f' :: 'a' :: 'l' :: 's' :: 'e' :: r => some (Json.bool false, r)
        | 'n' :: 'u' :: 'l' :: 'l' :: r => some (Json.null, r)
        | c :: r =>
          if c = '-' ∨ c.isDigit then
            (match lexNumber (c :: r) with
             | some mer => some (Json.num mer.1 mer.2.1, mer.2.2)
             | none => none)
          else none
        | [] => none) = parseStep f (.elems []) (c0 :: t)
  rw [skipJsonWs_cons (by decide : isJsonWs '[' = false)]
  show (match skipJsonWs (c0 :: t) with
        | ']' :: r2 => some (Json.arr [], r2)
        | r2 => parseStep f (.elems []) r2) = _
  rw [skipJsonWs_cons h]
  split
  · rename_i heq
    exact absurd (List.head_eq_of_cons_eq heq.symm) (fun e => hne e.symm)
  · rfl

/-- The object branch of a value, when the first member starts with a
non-whitespace character other than the closing brace. -/
theorem parseStep_val_obj_go (f : Nat) {c0 : Char} (t : JStr)
    (h : isJsonWs c0 = false) (hne : c0 ≠ '\x7d') :
    parseStep (f + 1) .val ('\x7b' :: (c0 :: t)) = parseStep f (.members []) (c0 :: t) := by
  show (match skipJsonWs ('\x7b' :: (c0 :: t)) with
        | '\x7b' :: r =>
          (match skipJsonWs r with
           | '\x7d' :: r2 => some (Json.obj [], r2)
           | r2 => parseStep f (.members []) r2)
        | '[' :: r =>
          (match skipJsonWs r with
           | ']' :: r2 => some (Json.arr [], r2)
           | r2 => parseStep f (.elems []) r2)
        | '"' :: r =>
          (match strBody .plain r with
           | some pr => some (Json.str (pairUnits pr.1), pr.2)
           | none => none)
        | 't' :: 'r' :: 'u' :: 'e' :: r => some (Json.bool true, r)
        | 'f' :: 'a' :: 'l' :: 's' :: 'e' :: r => some (Json.bool false, r)
        | 'n' :: 'u' :: 'l' :: 'l' :: r => some (Json.null, r)
        | c :: r =>
          if c = '-' ∨ c.isDigit then
            (match lexNumber (c :: r) with
             | some mer => some (Json.num mer.1 mer.2.1, mer.2.2)
             | none => none)
          else none
        | [] => none) = parseStep f (.members []) (c0 :: t)
  rw [skipJsonWs_cons (by decide : isJsonWs '\x7b' = false)]
  show (match skipJsonWs (c0 :: t) with
        | '\x7d' :: r2 => some (Json.obj [], r2)
        | r2 => parseStep f (.members []) r2) = _
  rw [skipJsonWs_cons h]
  split
  · rename_i heq
    exact absurd (List.head_eq_of_cons_eq heq.symm) (fun e => hne e.symm)
  · rfl

theorem sepByComma_map_head {α : Type} {g : α → JStr} {c0 : Char}
    (hg : ∀ a, ∃ t, g a = c0 :: t) (x : α) (xs : List α) :
    ∃ t, sepByComma ((x :: xs).map g) = c0 :: t := by
  obtain ⟨t0, ht0⟩ := hg x
  cases xs with
  | nil => exact ⟨t0, by simp [sepByComma, ht0]⟩
  | cons y ys => exact ⟨t0 ++ ',' :: sepByComma ((y :: ys).map g), by simp [sepByComma, ht0]⟩

theorem parseStep_elems_quotes : ∀ (xs : List JStr) (x : JStr) (acc : List Json)
    (f : Nat) (rest : JStr),
    (sepByComma ((x :: xs).map jsonQuote)).length < f →
    parseStep f (.elems acc) (sepByComma ((x :: xs).map jsonQuote) ++ (']' :: rest))
      = some (.arr (acc ++ (x :: xs).map Json.str), rest)
  | [], x, acc, f, rest, hf => by
    have hsep : sepByComma ([x].map jsonQuote) = jsonQuote x := by simp [sepByComma]
    rw [hsep] at hf ⊢
    have h2 := jsonQuote_length x
    rcases Nat.exists_eq_succ_of_ne_zero (by omega : f ≠ 0) with ⟨f1, rfl⟩
    rcases Nat.exists_eq_succ_of_ne_zero (by omega : f1 ≠ 0) with ⟨f2, rfl⟩
    rw [parseStep_elems_step, parseStep_quote f2 x (']' :: rest)]
    simp [skipJsonWs, isJsonWs]
  | y :: ys, x, acc, f, rest, hf => by
    have hsep : sepByComma ((x :: y :: ys).map jsonQuote)
        = jsonQuote x ++ ',' :: sepByComma ((y :: ys).map jsonQuote) := by
      simp [sepByComma]
    rw [hsep] at hf ⊢
    have h2 := jsonQuote_length x
    simp only [List.length_append, List.length_cons] at hf
    rcases Nat.exists_eq_succ_of_ne_zero (by omega : f ≠ 0) with ⟨f1, rfl⟩
    rcases Nat.exists_eq_succ_of_ne_zero (by omega : f1 ≠ 0) with ⟨f2, rfl⟩
    have harg : (jsonQuote x ++ ',' :: sepByComma ((y :: ys).map jsonQuote)) ++ (']' :: rest)
        = jsonQuote x ++ (',' :: (sepByComma ((y :: ys).map jsonQuote) ++ (']' :: rest))) := by
      simp
    rw [harg, parseStep_elems_step, parseStep_quote f2 x _]
    have hrec := parseStep_elems_quotes ys y (acc ++ [Json.str x]) (f2 + 1) rest (by omega)
    simp only [skipJsonWs, isJsonWs]
    simpa using hrec

theorem parseStep_fieldVal : ∀ (v : FieldVal) (f : Nat) (rest : JStr),
    (renderFieldVal v).length < f →
    parseStep f .val (renderFieldVal v ++ rest) = some (fieldValJson v, rest)
  | .fs s, f, rest, hf => by
    have h2 := jsonQuote_length s
    have hl : (renderFieldVal (.fs s)).length = (jsonQuote s).length := rfl
    rw [hl] at hf
    rcases Nat.exists_eq_succ_of_ne_zero (by omega : f ≠ 0) with ⟨f1, rfl⟩
    exact parseStep_quote f1 s rest
  | .fa [], f, rest, hf => by
    have hl : renderFieldVal (.fa []) = '[' :: (']' :: []) := rfl
    rw [hl] at hf ⊢
    rcases Nat.exists_eq_succ_of_ne_zero (by omega : f ≠ 0) with ⟨f1, rfl⟩
    simp only [parseStep, List.cons_append, List.nil_append,
      skipJsonWs_cons (by decide : isJsonWs '[' = false),
      skipJsonWs_cons (by decide : isJsonWs ']' = false)]
    simp [fieldValJson]
  | .fa (x :: xs), f, rest, hf => by
    have hl : renderFieldVal (.fa (x :: xs))
        = '[' :: (sepByComma ((x :: xs).map jsonQuote) ++ [']']) := rfl
    rw [hl] at hf ⊢
    simp only [List.length_cons, List.length_append] at hf
    rcases Nat.exists_eq_succ_of_ne_zero (by omega : f ≠ 0) with ⟨f1, rfl⟩
    obtain ⟨t0, ht0⟩ := @sepByComma_map_head JStr jsonQuote '"'
      (fun a => ⟨escapeStr a ++ ['"'], rfl⟩) x xs
    have harg : ('[' :: (sepByComma ((x :: xs).map jsonQuote) ++ [']'])) ++ rest
        = '[' :: (sepByComma ((x :: xs).map jsonQuote) ++ (']' :: rest)) := by
      simp
    have hcons : sepByComma ((x :: xs).map jsonQuote) ++ (']' :: rest)
        = '"' :: (t0 ++ (']' :: rest)) := by
      rw [ht0]; simp
    rw [harg, hcons, parseStep_val_arr_go f1 _ (by decide) (by decide), ← hcons,
      parseStep_elems_quotes xs x [] f1 rest (by omega)]
    simp [fieldValJson]

theorem setMember_fresh : ∀ (acc : List (JStr × Json)) (k : JStr) (v : Json),
    k ∉ acc.map Prod.fst → setMember acc k v = acc ++ [(k, v)]
  | [], _, _, _ => rfl
  | (k0, v0) :: t, k, v, h => by
    have hmap : List.map Prod.fst (((k0, v0) : JStr × Json) :: t)
        = k0 :: List.map Prod.fst t := rfl
    rw [hmap] at h
    have hk : k0 ≠ k := by
      intro e
      exact h (e ▸ List.mem_cons_self k0 (List.map Prod.fst t))
    have ht : k ∉ List.map Prod.fst t := fun hm => h (List.mem_cons_of_mem k0 hm)
    simp only [setMember, if_neg hk]
    rw [setMember_fresh t k v ht]
    simp

theorem renderMember_head (m : JStr × FieldVal) :
    ∃ t, renderMember m = '"' :: t :=
  ⟨(escapeStr m.1 ++ ['"']) ++ ':' :: renderFieldVal m.2, by simp [renderMember, jsonQuote]⟩

theorem parseStep_members_render : ∀ (ms : List (JStr × FieldVal)) (m0 : JStr × FieldVal)
    (acc : List (JStr × Json)) (f : Nat) (rest : JStr),
    (sepByComma ((m0 :: ms).map renderMember)).length < f →
    (acc.map Prod.fst ++ (m0 :: ms).map Prod.fst).Nodup →
    parseStep f (.members acc) (sepByComma ((m0 :: ms).map renderMember) ++ ('\x7d' :: rest))
      = some (.obj (acc ++ (m0 :: ms).map (fun m => (m.1, fieldValJson m.2))), rest)
  | [], m0, acc, f, rest, hf, hnd => by
    obtain ⟨k, v⟩ := m0
    have hsep : sepByComma ([(k, v)].map renderMember) = renderMember (k, v) := by
      simp [sepByComma]
    rw [hsep] at hf ⊢
    have h2 := two_le_renderFieldVal v
    have h3 := jsonQuote_length k
    simp only [renderMember, List.length_append, List.length_cons] at hf
    rcases Nat.exists_eq_succ_of_ne_zero (by omega : f ≠ 0) with ⟨f1, rfl⟩
    have hknotin : k ∉ acc.map Prod.fst := by
      rw [List.nodup_append] at hnd
      intro hm
      exact hnd.2.2 hm (by rw [List.map_cons]; exact List.mem_cons_self _ _)
    have harg : renderMember (k, v) ++ ('\x7d' :: rest)
        = '"' :: (escapeStr k ++ ('"' :: (':' :: (renderFieldVal v ++ ('\x7d' :: rest))))) := by
      simp [renderMember, jsonQuote]
    rw [harg, parseStep_members_step,
      skipJsonWs_cons (by decide : isJsonWs '"' = false)]
    simp [strBody_escape, skipJsonWs, isJsonWs,
      parseStep_fieldVal v f1 ('\x7d' :: rest) (by omega),
      pairUnits_map_toNat, setMember_fresh acc k (fieldValJson v) hknotin]
  | m1 :: ms', m0, acc, f, rest, hf, hnd => by
    obtain ⟨k, v⟩ := m0
    have hsep : sepByComma (((k, v) :: m1 :: ms').map renderMember)
        = renderMember (k, v) ++ ',' :: sepByComma ((m1 :: ms').map renderMember) := by
      simp [sepByComma]
    rw [hsep] at hf ⊢
    have h2 := two_le_renderFieldVal v
    have h3 := jsonQuote_length k
    simp only [renderMember, List.length_append, List.length_cons] at hf
    rcases Nat.exists_eq_succ_of_ne_zero (by omega : f ≠ 0) with ⟨f1, rfl⟩
    have hknotin : k ∉ acc.map Prod.fst := by
      rw [List.nodup_append] at hnd
      intro hm
      exact hnd.2.2 hm (by rw [List.map_cons]; exact List.mem_cons_self _ _)
    have hnd' : ((acc ++ [(k, fieldValJson v)]).map Prod.fst
        ++ (m1 :: ms').map Prod.fst).Nodup := by
      simp only [List.map_append, List.map_cons, List.map_nil, List.append_assoc] at hnd ⊢
      simpa using hnd
    have harg : (renderMember (k, v) ++ ',' :: sepByComma ((m1 :: ms').map renderMember))
          ++ ('\x7d' :: rest)
        = '"' :: (escapeStr k ++ ('"' :: (':' :: (renderFieldVal v
            ++ (',' :: (sepByComma ((m1 :: ms').map renderMember) ++ ('\x7d' :: rest))))))) := by
      simp [renderMember, jsonQuote]
    rw [harg, parseStep_members_step,
      skipJsonWs_cons (by decide : isJsonWs '"' = false)]
    have hrec := parseStep_members_render ms' m1 (acc ++ [(k, fieldValJson v)]) f1 rest
      (by omega) hnd'
    simp only [List.map_cons] at hrec
    simp [strBody_escape, skipJsonWs, isJsonWs,
      parseStep_fieldVal v f1 _ (by omega),
      pairUnits_map_toNat, setMember_fresh acc k (fieldValJson v) hknotin, hrec]

theorem parseStep_renderObj (ms : List (JStr × FieldVal)) (m0 : JStr × FieldVal)
    (f : Nat) (rest : JStr)
    (hf : (renderObj (m0 :: ms)).length < f)
    (hnd : ((m0 :: ms).map Prod.fst).Nodup) :
    parseStep f .val (renderObj (m0 :: ms) ++ rest) = some (membersJson (m0 :: ms), rest) := by
  simp only [renderObj, List.length_cons, List.length_append] at hf
  rcases Nat.exists_eq_succ_of_ne_zero (by omega : f ≠ 0) with ⟨f1, rfl⟩
  obtain ⟨t0, ht0⟩ := sepByComma_map_head renderMember_head m0 ms
  have harg : renderObj (m0 :: ms) ++ rest
      = '\x7b' :: (sepByComma ((m0 :: ms).map renderMember) ++ ('\x7d' :: rest)) := by
    simp [renderObj]
  have hcons : sepByComma ((m0 :: ms).map renderMember) ++ ('\x7d' :: rest)
      = '"' :: (t0 ++ ('\x7d' :: rest)) := by
    rw [ht0]; simp
  have hnd0 : (([] : List (JStr × Json)).map Prod.fst
      ++ ((m0 :: ms).map Prod.fst)).Nodup := by
    rw [List.map_nil, List.nil_append]
    exact hnd
  rw [harg, hcons, parseStep_val_obj_go f1 _ (by decide) (by decide), ← hcons,
    parseStep_members_render ms m0 [] f1 rest (by omega) hnd0]
  simp [membersJson]

theorem jsonParse_renderObj (ms : List (JStr × FieldVal)) (m0 : JStr × FieldVal)
    (hnd : ((m0 :: ms).map Prod.fst).Nodup) :
    jsonParse (renderObj (m0 :: ms)) = some (membersJson (m0 :: ms)) := by
  unfold jsonParse
  have hp := parseStep_renderObj ms m0 ((renderObj (m0 :: ms)).length + 1) []
    (by omega) hnd
  rw [List.append_nil] at hp
  rw [hp]
  simp [skipJsonWs]

/-! ### The extraction paths on well-formed inputs -/

theorem startsTriple_btick (z : JStr) :
    startsTriple (btick :: btick :: btick :: z) = true := by
  simp [startsTriple]

theorem splitAtTriple_marker : ∀ (w : JStr), (∀ c ∈ w, c ≠ btick) →
    ∀ z : JStr, splitAtTriple (w ++ (btick :: btick :: btick :: z))
      = some (w, btick :: btick :: btick :: z)
  | [], _, z => by
    simp [splitAtTriple, startsTriple_btick]
  | c :: w', hw, z => by
    have hc : c ≠ btick := hw c (List.mem_cons_self c w')
    have hrec := splitAtTriple_marker w' (fun x hx => hw x (List.mem_cons_of_mem c hx)) z
    simp only [List.cons_append, splitAtTriple, startsTriple_cons_ne hc]
    simp [hrec]

theorem findFenced_no_triple : ∀ (t : JStr), (∀ c ∈ t, c ≠ btick) → findFenced t = none
  | [], _ => rfl
  | c :: rest, h => by
    have hc : c ≠ btick := h c (List.mem_cons_self c rest)
    have hrec := findFenced_no_triple rest (fun x hx => h x (List.mem_cons_of_mem c hx))
    simp only [findFenced, startsTriple_cons_ne hc]
    simp [hrec]

theorem findFenced_skip : ∀ (p : JStr), (∀ c ∈ p, c ≠ btick) →
    ∀ z, findFenced (p ++ z) = findFenced z
  | [], _, z => rfl
  | c :: p', hp, z => by
    have hc : c ≠ btick := hp c (List.mem_cons_self c p')
    have hrec := findFenced_skip p' (fun x hx => hp x (List.mem_cons_of_mem c hx)) z
    simp only [List.cons_append, findFenced, startsTriple_cons_ne hc]
    simp [hrec]

/-- The fenced-block regex on a reply that is exactly a fenced code block
(optionally tagged `json`) around a backtick-free payload with
non-whitespace first and last characters: the capture is the payload. -/
theorem findFenced_wrap (tagged : Bool) (m : JStr) {c1 c2 : Char}
    (h1w : isJsWs c1 = false) (h2w : isJsWs c2 = false)
    (hnb : ∀ c ∈ c1 :: (m ++ [c2]), c ≠ btick) :
    findFenced ((if tagged then cl ("```json\n") else cl ("```\n"))
        ++ ((c1 :: (m ++ [c2])) ++ cl ("\n```")))
      = some (c1 :: (m ++ [c2])) := by
  have hw : ∀ c ∈ '\n' :: ((c1 :: (m ++ [c2])) ++ ['\n']), c ≠ btick := by
    intro c hc
    rcases List.mem_cons.mp hc with rfl | hc
    · decide
    rcases List.mem_append.mp hc with hc | hc
    · exact hnb c hc
    · have : c = '\n' := List.mem_singleton.mp hc
      subst this; decide
  have harr : '\n' :: ((c1 :: (m ++ [c2])) ++ ('\n' :: btick :: btick :: btick :: []))
      = ('\n' :: ((c1 :: (m ++ [c2])) ++ ['\n'])) ++ (btick :: btick :: btick :: []) := by
    simp
  have htrim : jsTrim ('\n' :: ((c1 :: (m ++ [c2])) ++ ['\n'])) = c1 :: (m ++ [c2]) := by
    have hx : '\n' :: ((c1 :: (m ++ [c2])) ++ ['\n'])
        = ['\n'] ++ (c1 :: (m ++ [c2])) ++ ['\n'] := by simp
    rw [hx]
    exact jsTrim_padded m h1w h2w (by intro c hc; simp at hc; subst hc; decide)
      (by intro c hc; simp at hc; subst hc; decide)
  cases tagged with
  | true =>
    have htext : (if true then cl ("```json\n") else cl ("```\n"))
          ++ ((c1 :: (m ++ [c2])) ++ cl ("\n```"))
        = btick :: btick :: btick :: 'j' :: 's' :: 'o' :: 'n' :: '\n'
          :: ((c1 :: (m ++ [c2])) ++ ('\n' :: btick :: btick :: btick :: [])) := rfl
    rw [htext]
    simp only [findFenced, startsTriple_btick]
    have hao : afterOpen (btick :: btick :: btick :: 'j' :: 's' :: 'o' :: 'n' :: '\n'
          :: ((c1 :: (m ++ [c2])) ++ ('\n' :: btick :: btick :: btick :: [])))
        = '\n' :: ((c1 :: (m ++ [c2])) ++ ('\n' :: btick :: btick :: btick :: [])) := rfl
    rw [hao, harr, splitAtTriple_marker _ hw []]
    simpa using htrim
  | false =>
    have htext : (if false then cl ("```json\n") else cl ("```\n"))
          ++ ((c1 :: (m ++ [c2])) ++ cl ("\n```"))
        = btick :: btick :: btick :: '\n'
          :: ((c1 :: (m ++ [c2])) ++ ('\n' :: btick :: btick :: btick :: [])) := rfl
    rw [htext]
    simp only [findFenced, startsTriple_btick]
    have hao : afterOpen (btick :: btick :: btick :: '\n'
          :: ((c1 :: (m ++ [c2])) ++ ('\n' :: btick :: btick :: btick :: [])))
        = '\n' :: ((c1 :: (m ++ [c2])) ++ ('\n' :: btick :: btick :: btick :: [])) := rfl
    rw [hao, harr, splitAtTriple_marker _ hw []]
    simpa using htrim

theorem firstIdx_prefix_free {pr : Char → Bool} : ∀ (p : JStr), (∀ c ∈ p, pr c = false) →
    ∀ {c0 : Char}, pr c0 = true → ∀ z : JStr, firstIdx pr (p ++ c0 :: z) = some p.length
  | [], _, c0, h0, z => by simp [firstIdx, h0]
  | c :: p', hp, c0, h0, z => by
    have hc : pr c = false := hp c (List.mem_cons_self c p')
    have hrec := firstIdx_prefix_free p' (fun x hx => hp x (List.mem_cons_of_mem c hx)) h0 z
    simp [firstIdx, hc, hrec]

theorem jsIndexOf_first {p : JStr} (hp : ∀ c ∈ p, c ≠ '\x7b') (z : JStr) :
    jsIndexOf (p ++ '\x7b' :: z) '\x7b' = (p.length : Int) := by
  unfold jsIndexOf
  rw [firstIdx_prefix_free p (fun c hc => decide_eq_false (hp c hc)) (by simp) z]

theorem jsLastIndexOf_last {s : JStr} (hs : ∀ c ∈ s, c ≠ '\x7d') (p y : JStr) :
    jsLastIndexOf (p ++ ((y ++ ['\x7d']) ++ s)) '\x7d'
      = (p.length : Int) + (y.length : Int) := by
  unfold jsLastIndexOf
  have hrev : (p ++ ((y ++ ['\x7d']) ++ s)).reverse
      = s.reverse ++ ('\x7d' :: (y.reverse ++ p.reverse)) := by
    simp
  rw [hrev, firstIdx_prefix_free s.reverse
    (fun c hc => decide_eq_false (hs c (List.mem_reverse.mp hc))) (by simp)
    (y.reverse ++ p.reverse)]
  simp only [List.length_append, List.length_reverse, List.length_cons, List.length_nil]
  omega

theorem jsSubstring_middle (p J s : JStr) :
    jsSubstring (p ++ (J ++ s)) (p.length : Int) ((p.length : Int) + (J.length : Int)) = J := by
  simp only [jsSubstring]
  have hlen : ((p ++ (J ++ s)).length : Int)
      = (p.length : Int) + (J.length : Int) + (s.length : Int) := by
    simp only [List.length_append, Nat.cast_add]
    ring
  rw [hlen]
  have h1 : min (max ((p.length : Int)) 0)
      ((p.length : Int) + (J.length : Int) + (s.length : Int)) = (p.length : Int) := by omega
  have h2 : min (max ((p.length : Int) + (J.length : Int)) 0)
      ((p.length : Int) + (J.length : Int) + (s.length : Int))
      = (p.length : Int) + (J.length : Int) := by omega
  rw [h1, h2]
  have h3 : min ((p.length : Int)) ((p.length : Int) + (J.length : Int))
      = (p.length : Int) := by omega
  have h4 : max ((p.length : Int)) ((p.length : Int) + (J.length : Int))
      = (p.length : Int) + (J.length : Int) := by omega
  rw [h3, h4]
  have h5 : ((p.length : Int)).toNat = p.length := Int.toNat_ofNat p.length
  have h6 : ((p.length : Int) + (J.length : Int) - (p.length : Int)).toNat = J.length := by
    omega
  rw [h5, h6, List.drop_left, List.take_left]

/-- The brace-scan fallback on a reply that is a JSON object literal
surrounded by prose that contains no opening brace before it and no closing
brace after it: the candidate is exactly the object literal. -/
theorem braceScanString_wrap {p s : JStr} (m : JStr)
    (hp : ∀ c ∈ p, c ≠ '\x7b') (hs : ∀ c ∈ s, c ≠ '\x7d') :
    braceScanString (p ++ (('\x7b' :: (m ++ ['\x7d'])) ++ s)) = '\x7b' :: (m ++ ['\x7d']) := by
  have hidx : jsIndexOf (p ++ (('\x7b' :: (m ++ ['\x7d'])) ++ s)) '\x7b'
      = (p.length : Int) := by
    have h := jsIndexOf_first hp ((m ++ ['\x7d']) ++ s)
    have hx : p ++ '\x7b' :: ((m ++ ['\x7d']) ++ s)
        = p ++ (('\x7b' :: (m ++ ['\x7d'])) ++ s) := by simp
    rwa [hx] at h
  have hlast : jsLastIndexOf (p ++ (('\x7b' :: (m ++ ['\x7d'])) ++ s)) '\x7d'
      = (p.length : Int) + (('\x7b' :: m).length : Int) := by
    have h := jsLastIndexOf_last hs p ('\x7b' :: m)
    have hx : p ++ ((('\x7b' :: m) ++ ['\x7d']) ++ s)
        = p ++ (('\x7b' :: (m ++ ['\x7d'])) ++ s) := by simp
    rwa [hx] at h
  simp only [braceScanString]
  rw [hidx, hlast]
  rw [if_pos ⟨by omega, by omega⟩]
  have harg : (p.length : Int) + (('\x7b' :: m).length : Int) + 1
      = (p.length : Int) + ((('\x7b' :: (m ++ ['\x7d']))).length : Int) := by
    simp only [List.length_cons, List.length_append, List.length_nil]
    omega
  rw [harg]
  have hsub := jsSubstring_middle p ('\x7b' :: (m ++ ['\x7d'])) s
  rw [hsub]
  exact jsTrim_braced m (by decide) (by decide)

/-! ### Backtick-freeness of rendered JSON -/

theorem hexDigitChar_ne_btick : ∀ d : Nat, d < 16 → hexDigitChar d ≠ btick := by decide

theorem btick_not_mem_escChar {c : Char} (h : c ≠ btick) : btick ∉ escChar c := by
  unfold escChar
  split_ifs with h1 h2 h3 h4 h5 h6 h7 h8
  · decide
  · decide
  · decide
  · decide
  · decide
  · decide
  · decide
  · intro hm
    simp only [List.mem_cons, List.not_mem_nil, or_false] at hm
    rcases hm with e | e | e | e | e | e
    · exact absurd e (by decide)
    · exact absurd e (by decide)
    · exact absurd e (by decide)
    · exact absurd e (by decide)
    · exact hexDigitChar_ne_btick (c.toNat / 16) (by omega) e.symm
    · exact hexDigitChar_ne_btick (c.toNat % 16) (by omega) e.symm
  · intro hm
    simp only [List.mem_cons, List.not_mem_nil, or_false] at hm
    exact h hm.symm

theorem btick_not_mem_escapeStr {s : JStr} (h : ∀ c ∈ s, c ≠ btick) :
    btick ∉ escapeStr s := by
  induction s with
  | nil => simp [escapeStr]
  | cons c t ih =>
    simp only [escapeStr]
    intro hm
    rcases List.mem_append.mp hm with hm | hm
    · exact btick_not_mem_escChar (h c (List.mem_cons_self c t)) hm
    · exact ih (fun x hx => h x (List.mem_cons_of_mem c hx)) hm

theorem btick_not_mem_jsonQuote {s : JStr} (h : ∀ c ∈ s, c ≠ btick) :
    btick ∉ jsonQuote s := by
  unfold jsonQuote
  intro hm
  rcases List.mem_cons.mp hm with e | hm
  · exact absurd e (by decide)
  rcases List.mem_append.mp hm with hm | hm
  · exact btick_not_mem_escapeStr h hm
  · simp only [List.mem_cons, List.not_mem_nil, or_false] at hm
    exact absurd hm (by decide)

theorem btick_not_mem_sepByComma : ∀ (l : List JStr), (∀ x ∈ l, btick ∉ x) →
    btick ∉ sepByComma l
  | [], _ => by simp [sepByComma]
  | [x], h => by simpa [sepByComma] using h x (by simp)
  | x :: y :: t, h => by
    have hrec := btick_not_mem_sepByComma (y :: t) (fun z hz => h z (List.mem_cons_of_mem x hz))
    simp only [sepByComma]
    intro hm
    rcases List.mem_append.mp hm with hm | hm
    · exact h x (by simp) hm
    · rcases List.mem_cons.mp hm with e | hm
      · exact absurd e (by decide)
      · exact hrec hm

theorem btick_not_mem_renderFieldVal_fs {s : JStr} (h : ∀ c ∈ s, c ≠ btick) :
    btick ∉ renderFieldVal (.fs s) := btick_not_mem_jsonQuote h

theorem btick_not_mem_renderFieldVal_fa {xs : List JStr}
    (h : ∀ x ∈ xs, ∀ c ∈ x, c ≠ btick) :
    btick ∉ renderFieldVal (.fa xs) := by
  unfold renderFieldVal
  intro hm
  rcases List.mem_cons.mp hm with e | hm
  · exact absurd e (by decide)
  rcases List.mem_append.mp hm with hm | hm
  · refine btick_not_mem_sepByComma _ ?_ hm
    intro q hq
    rcases List.mem_map.mp hq with ⟨x, hx, rfl⟩
    exact btick_not_mem_jsonQuote (h x hx)
  · simp only [List.mem_cons, List.not_mem_nil, or_false] at hm
    exact absurd hm (by decide)

theorem btick_not_mem_renderMember {k : JStr} {v : FieldVal}
    (hk : ∀ c ∈ k, c ≠ btick) (hv : btick ∉ renderFieldVal v) :
    btick ∉ renderMember (k, v) := by
  unfold renderMember
  intro hm
  rcases List.mem_append.mp hm with hm | hm
  · exact btick_not_mem_jsonQuote hk hm
  · rcases List.mem_cons.mp hm with e | hm
    · exact absurd e (by decide)
    · exact hv hm

theorem btick_not_mem_renderRecord (r : CommandAnalysis) (h : recordNoBacktick r) :
    btick ∉ renderRecord r := by
  obtain ⟨h1, h2, h3, h4⟩ := h
  unfold renderRecord renderObj
  intro hm
  rcases List.mem_cons.mp hm with e | hm
  · exact absurd e (by decide)
  rcases List.mem_append.mp hm with hm | hm
  · refine btick_not_mem_sepByComma _ ?_ hm
    intro q hq
    rcases List.mem_map.mp hq with ⟨mem0, hmem0, rfl⟩
    simp only [recordMembers, List.mem_cons, List.not_mem_nil, or_false] at hmem0
    rcases hmem0 with rfl | rfl | rfl | rfl
    · exact btick_not_mem_renderMember (by decide) (btick_not_mem_renderFieldVal_fs h1)
    · exact btick_not_mem_renderMember (by decide) (btick_not_mem_renderFieldVal_fs h2)
    · exact btick_not_mem_renderMember (by decide) (btick_not_mem_renderFieldVal_fa h3)
    · exact btick_not_mem_renderMember (by decide) (btick_not_mem_renderFieldVal_fa h4)
  · simp only [List.mem_cons, List.not_mem_nil, or_false] at hm
    exact absurd hm (by decide)

/-! ### Plumbing the pipeline together -/

theorem extractJsonString_of_found {text J : JStr} (h : findFenced text = some J)
    (hne : J ≠ []) : extractJsonString text = jsTrim J := by
  unfold extractJsonString
  rw [h]
  simp [hne]

theorem extractJsonString_of_none {text : JStr} (h : findFenced text = none) :
    extractJsonString text = braceScanString text := by
  unfold extractJsonString
  rw [h]

theorem analyzeCore_of_parse {text J : JStr} {v : Json}
    (hx : extractJsonString text = J) (hne : J ≠ [])
    (hp : jsonParse (cleanAll J) = some v) : analyzeCore text = Except.ok v := by
  unfold analyzeCore
  rw [hx, if_neg hne, hp]

/-- The fenced path end to end: a reply that is exactly a backtick-free
object literal inside a fenced code block normalizes to the parsed object. -/
theorem analyzeCore_obj_fenced (tagged : Bool) (ms : List (JStr × FieldVal))
    (m0 : JStr × FieldVal)
    (hnb : btick ∉ renderObj (m0 :: ms))
    (hnd : ((m0 :: ms).map Prod.fst).Nodup) :
    analyzeCore ((if tagged then cl ("```json\n") else cl ("```\n"))
        ++ (renderObj (m0 :: ms) ++ cl ("\n```"))) = Except.ok (membersJson (m0 :: ms)) := by
  have hshape : renderObj (m0 :: ms)
      = '\x7b' :: (sepByComma ((m0 :: ms).map renderMember) ++ ['\x7d']) := rfl
  have hnb' : ∀ c ∈ '\x7b' :: (sepByComma ((m0 :: ms).map renderMember) ++ ['\x7d']),
      c ≠ btick := by
    intro c hc e
    exact hnb (e ▸ (hshape ▸ hc))
  have hff := findFenced_wrap tagged (sepByComma ((m0 :: ms).map renderMember))
    (by decide) (by decide) hnb'
  rw [← hshape] at hff
  have hne : renderObj (m0 :: ms) ≠ [] := by rw [hshape]; simp
  have htrimJ : jsTrim (renderObj (m0 :: ms)) = renderObj (m0 :: ms) := by
    rw [hshape]; exact jsTrim_braced _ (by decide) (by decide)
  have hclean : cleanAll (renderObj (m0 :: ms)) = renderObj (m0 :: ms) := by
    rw [hshape]; exact cleanAll_braced _ (by decide) (by decide) (by decide) (by decide)
  refine analyzeCore_of_parse ?_ hne ?_
  · rw [extractJsonString_of_found hff hne, htrimJ]
  · rw [hclean]; exact jsonParse_renderObj ms m0 hnd

/-- The brace-scan path end to end: a reply that is a backtick-free object
literal surrounded by inert prose normalizes to the parsed object. -/
theorem analyzeCore_obj_prose (p s : JStr) (ms : List (JStr × FieldVal))
    (m0 : JStr × FieldVal)
    (hp : ∀ c ∈ p, c ≠ '\x7b' ∧ c ≠ '\x7d' ∧ c ≠ btick)
    (hs : ∀ c ∈ s, c ≠ '\x7b' ∧ c ≠ '\x7d' ∧ c ≠ btick)
    (hnb : btick ∉ renderObj (m0 :: ms))
    (hnd : ((m0 :: ms).map Prod.fst).Nodup) :
    analyzeCore (p ++ (renderObj (m0 :: ms) ++ s)) = Except.ok (membersJson (m0 :: ms)) := by
  have hshape : renderObj (m0 :: ms)
      = '\x7b' :: (sepByComma ((m0 :: ms).map renderMember) ++ ['\x7d']) := rfl
  have hff : findFenced (p ++ (renderObj (m0 :: ms) ++ s)) = none := by
    refine findFenced_no_triple _ ?_
    intro c hc
    rcases List.mem_append.mp hc with hc | hc
    · exact (hp c hc).2.2
    rcases List.mem_append.mp hc with hc | hc
    · intro e; exact hnb (e ▸ hc)
    · exact (hs c hc).2.2
  have hbrace : braceScanString (p ++ (renderObj (m0 :: ms) ++ s)) = renderObj (m0 :: ms) := by
    have hb := @braceScanString_wrap p s
      (sepByComma ((m0 :: ms).map renderMember))
      (fun c hc => (hp c hc).1) (fun c hc => (hs c hc).2.1)
    rw [← hshape] at hb
    exact hb
  have hne : renderObj (m0 :: ms) ≠ [] := by rw [hshape]; simp
  have hclean : cleanAll (renderObj (m0 :: ms)) = renderObj (m0 :: ms) := by
    rw [hshape]; exact cleanAll_braced _ (by decide) (by decide) (by decide) (by decide)
  refine analyzeCore_of_parse ?_ hne ?_
  · rw [extractJsonString_of_none hff, hbrace]
  · rw [hclean]; exact jsonParse_renderObj ms m0 hnd

/-! ### The claims -/

/-- C6: for every command string that is empty after trimming whitespace,
the analysis request is rejected synchronously with the validation error
before the Prompt Builder or the provider is reached: no prompt is built,
no network call is made, the loading state is never entered. -/
theorem C6_empty_command_rejected (tier : Tier) (command : JStr)
    (customApiKey envKey : Option JStr) (prevAnalysis : Option Json)
    (provider : Except JsError JStr)
    (h : jsTrim command = []) :
    (analyzeCommand tier command customApiKey envKey prevAnalysis provider).promptBuilt
        = none ∧
    (analyzeCommand tier command customApiKey envKey prevAnalysis provider).networkCalled
        = false ∧
    (analyzeCommand tier command customApiKey envKey prevAnalysis provider).enteredLoading
        = false ∧
    (analyzeCommand tier command customApiKey envKey prevAnalysis provider).loading
        = false ∧
    (analyzeCommand tier command customApiKey envKey prevAnalysis provider).error
        = some emptyCommandMsg := by
  unfold analyzeCommand
  rw [if_pos h]
  exact ⟨rfl, rfl, rfl, rfl, rfl⟩

theorem C6_witness :
    jsTrim (cl ("   ")) = [] ∧
    ((analyzeCommand .fast (cl ("   ")) none (some (cl ("k"))) none
        (Except.ok (cl ("x")))).promptBuilt = none ∧
     (analyzeCommand .fast (cl ("   ")) none (some (cl ("k"))) none
        (Except.ok (cl ("x")))).networkCalled = false ∧
     (analyzeCommand .fast (cl ("   ")) none (some (cl ("k"))) none
        (Except.ok (cl ("x")))).enteredLoading = false ∧
     (analyzeCommand .fast (cl ("   ")) none (some (cl ("k"))) none
        (Except.ok (cl ("x")))).loading = false ∧
     (analyzeCommand .fast (cl ("   ")) none (some (cl ("k"))) none
        (Except.ok (cl ("x")))).error = some emptyCommandMsg) :=
  ⟨rfl, C6_empty_command_rejected .fast (cl ("   ")) none (some (cl ("k"))) none
    (Except.ok (cl ("x"))) rfl⟩

/-- C7: every request that passes input validation clears the previous
analysis and error before the provider call is issued (the state at the
call is: no analysis, no error, loading), and every outcome leaves the
loading indicator cleared with no analysis shown whenever an error is
shown. -/
theorem C7_clears_before_call (tier : Tier) (command : JStr)
    (customApiKey envKey : Option JStr) (prevAnalysis : Option Json)
    (provider : Except JsError JStr)
    (h1 : jsTrim command ≠ [])
    (h2 : truthyOptStr (selectKey customApiKey envKey) = true) :
    (analyzeCommand tier command customApiKey envKey prevAnalysis provider).callState
        = some (none, none, true) ∧
    (analyzeCommand tier command customApiKey envKey prevAnalysis provider).loading
        = false ∧
    ((analyzeCommand tier command customApiKey envKey prevAnalysis provider).error.isSome →
      (analyzeCommand tier command customApiKey envKey prevAnalysis provider).analysis
        = none) := by
  cases provider with
  | error e => simp [analyzeCommand, h1, h2]
  | ok text =>
    cases hcore : analyzeCore text with
    | ok v => simp [analyzeCommand, h1, h2, hcore]
    | error e => simp [analyzeCommand, h1, h2, hcore]

theorem C7_witness :
    jsTrim (cl ("ls")) ≠ [] ∧
    truthyOptStr (selectKey none (some (cl ("k")))) = true ∧
    ((analyzeCommand .fast (cl ("ls")) none (some (cl ("k"))) (some Json.null)
        (Except.ok (cl ("no json at all")))).callState = some (none, none, true) ∧
     (analyzeCommand .fast (cl ("ls")) none (some (cl ("k"))) (some Json.null)
        (Except.ok (cl ("no json at all")))).loading = false ∧
     ((analyzeCommand .fast (cl ("ls")) none (some (cl ("k"))) (some Json.null)
        (Except.ok (cl ("no json at all")))).error.isSome →
      (analyzeCommand .fast (cl ("ls")) none (some (cl ("k"))) (some Json.null)
        (Except.ok (cl ("no json at all")))).analysis = none)) :=
  ⟨by decide, rfl, C7_clears_before_call .fast (cl ("ls")) none (some (cl ("k")))
    (some Json.null) (Except.ok (cl ("no json at all"))) (by decide) rfl⟩

/-- C8: the API key used for the call is the user-supplied override when
one is present (truthy), otherwise the environment default; when neither
is available the request fails with the validation error before any
network call, with no prompt built. -/
theorem C8_key_selection (tier : Tier) (command : JStr)
    (customApiKey envKey : Option JStr) (prevAnalysis : Option Json)
    (provider : Except JsError JStr)
    (h1 : jsTrim command ≠ []) :
    (truthyOptStr customApiKey = true →
      (analyzeCommand tier command customApiKey envKey prevAnalysis provider).networkKey
          = customApiKey ∧
      (analyzeCommand tier command customApiKey envKey prevAnalysis provider).networkCalled
          = true) ∧
    (truthyOptStr customApiKey = false → truthyOptStr envKey = true →
      (analyzeCommand tier command customApiKey envKey prevAnalysis provider).networkKey
          = envKey ∧
      (analyzeCommand tier command customApiKey envKey prevAnalysis provider).networkCalled
          = true) ∧
    (truthyOptStr customApiKey = false → truthyOptStr envKey = false →
      (analyzeCommand tier command customApiKey envKey prevAnalysis provider).networkCalled
          = false ∧
      (analyzeCommand tier command customApiKey envKey prevAnalysis provider).promptBuilt
          = none ∧
      (analyzeCommand tier command customApiKey envKey prevAnalysis provider).error
          = some missingKeyMsg) := by
  refine ⟨?_, ?_, ?_⟩
  · intro hc
    have hsel : selectKey customApiKey envKey = customApiKey := by
      unfold selectKey; rw [hc]; simp
    have htr : truthyOptStr (selectKey customApiKey envKey) = true := by
      rw [hsel]; exact hc
    cases provider with
    | error e => simp [analyzeCommand, h1, htr, hsel, hc]
    | ok text =>
      cases hcore : analyzeCore text with
      | ok v => simp [analyzeCommand, h1, htr, hsel, hc, hcore]
      | error e => simp [analyzeCommand, h1, htr, hsel, hc, hcore]
  · intro hc he
    have hsel : selectKey customApiKey envKey = envKey := by
      unfold selectKey; rw [hc]; simp
    have htr : truthyOptStr (selectKey customApiKey envKey) = true := by
      rw [hsel]; exact he
    cases provider with
    | error e => simp [analyzeCommand, h1, htr, hsel, he]
    | ok text =>
      cases hcore : analyzeCore text with
      | ok v => simp [analyzeCommand, h1, htr, hsel, he, hcore]
      | error e => simp [analyzeCommand, h1, htr, hsel, he, hcore]
  · intro hc he
    have hsel : selectKey customApiKey envKey = envKey := by
      unfold selectKey; rw [hc]; simp
    have htr : truthyOptStr (selectKey customApiKey envKey) = false := by
      rw [hsel]; exact he
    simp [analyzeCommand, h1, htr]

theorem C8_witness :
    jsTrim (cl ("ls")) ≠ [] ∧
    ((truthyOptStr (some (cl ("custom"))) = true →
      (analyzeCommand .accurate (cl ("ls")) (some (cl ("custom"))) (some (cl ("env"))) none
          (Except.ok (cl ("x")))).networkKey = some (cl ("custom")) ∧
      (analyzeCommand .accurate (cl ("ls")) (some (cl ("custom"))) (some (cl ("env"))) none
          (Except.ok (cl ("x")))).networkCalled = true) ∧
     (truthyOptStr (some (cl ("custom"))) = false → truthyOptStr (some (cl ("env"))) = true →
      (analyzeCommand .accurate (cl ("ls")) (some (cl ("custom"))) (some (cl ("env"))) none
          (Except.ok (cl ("x")))).networkKey = some (cl ("env")) ∧
      (analyzeCommand .accurate (cl ("ls")) (some (cl ("custom"))) (some (cl ("env"))) none
          (Except.ok (cl ("x")))).networkCalled = true) ∧
     (truthyOptStr (some (cl ("custom"))) = false → truthyOptStr (some (cl ("env"))) = false →
      (analyzeCommand .accurate (cl ("ls")) (some (cl ("custom"))) (some (cl ("env"))) none
          (Except.ok (cl ("x")))).networkCalled = false ∧
      (analyzeCommand .accurate (cl ("ls")) (some (cl ("custom"))) (some (cl ("env"))) none
          (Except.ok (cl ("x")))).promptBuilt = none ∧
      (analyzeCommand .accurate (cl ("ls")) (some (cl ("custom"))) (some (cl ("env"))) none
          (Except.ok (cl ("x")))).error = some missingKeyMsg)) :=
  ⟨by decide, C8_key_selection .accurate (cl ("ls")) (some (cl ("custom")))
    (some (cl ("env"))) none (Except.ok (cl ("x"))) (by decide)⟩

/-- C9: a user-supplied API key override that is the empty string is
falsy, so the handler behaves exactly as if no override were supplied —
the key selection falls back to the environment default. -/
theorem C9_empty_override_ignored (tier : Tier) (command : JStr)
    (envKey : Option JStr) (prevAnalysis : Option Json)
    (provider : Except JsError JStr) :
    analyzeCommand tier command (some []) envKey prevAnalysis provider
      = analyzeCommand tier command none envKey prevAnalysis provider := rfl

/-- C5: whenever the provider reply yields a non-empty extracted candidate
whose cleaned form is not valid JSON, the thrown error is a SyntaxError
and the handler surfaces the dedicated "Invalid JSON format … Try running
the analysis again." message — not the generic message — and no analysis
is shown. -/
theorem C5_malformed_json_distinct (tier : Tier) (command : JStr)
    (customApiKey envKey : Option JStr) (prevAnalysis : Option Json) (text : JStr)
    (h1 : jsTrim command ≠ [])
    (h2 : truthyOptStr (selectKey customApiKey envKey) = true)
    (h3 : extractJsonString text ≠ [])
    (h4 : jsonParse (cleanAll (extractJsonString text)) = none) :
    analyzeCore text = Except.error jsonSyntaxError ∧
    (analyzeCommand tier command customApiKey envKey prevAnalysis (Except.ok text)).error
        = some invalidJsonDisplay ∧
    (analyzeCommand tier command customApiKey envKey prevAnalysis (Except.ok text)).analysis
        = none := by
  have hcore : analyzeCore text = Except.error jsonSyntaxError := by
    unfold analyzeCore
    rw [if_neg h3, h4]
  refine ⟨hcore, ?_, ?_⟩ <;>
    simp [analyzeCommand, h1, h2, hcore, errorDisplay, jsonSyntaxError]

theorem C5_witness :
    jsTrim (cl ("ls")) ≠ [] ∧
    truthyOptStr (selectKey none (some (cl ("k")))) = true ∧
    extractJsonString (cl ("\x7b\"a\":1,\x7d")) ≠ [] ∧
    jsonParse (cleanAll (extractJsonString (cl ("\x7b\"a\":1,\x7d")))) = none ∧
    (analyzeCore (cl ("\x7b\"a\":1,\x7d")) = Except.error jsonSyntaxError ∧
     (analyzeCommand .fast (cl ("ls")) none (some (cl ("k"))) none
        (Except.ok (cl ("\x7b\"a\":1,\x7d")))).error = some invalidJsonDisplay ∧
     (analyzeCommand .fast (cl ("ls")) none (some (cl ("k"))) none
        (Except.ok (cl ("\x7b\"a\":1,\x7d")))).analysis = none) :=
  ⟨by decide, rfl, by decide, rfl,
   C5_malformed_json_distinct .fast (cl ("ls")) none (some (cl ("k"))) none
     (cl ("\x7b\"a\":1,\x7d")) (by decide) rfl (by decide) rfl⟩

/-- C2: the code, evaluated at the failing input "Reply: \x7b" (an opening
brace preceded by text, no closing brace): `lastIndexOf + 1` is `0`, never
`-1`, so the intended missing-delimiter check cannot fire; `substring`
swaps its arguments and extracts the text before the brace, which reaches
`JSON.parse` and fails with the SyntaxError classification — not with the
"no JSON object found" failure the claim (and the spec) prescribe. -/
theorem C2_missing_close_brace_reaches_parse :
    extractJsonString (cl ("Reply: \x7b")) = cl ("Reply:") ∧
    analyzeCore (cl ("Reply: \x7b")) = Except.error jsonSyntaxError ∧
    errorDisplay jsonSyntaxError = invalidJsonDisplay :=
  ⟨rfl, rfl, rfl⟩

/-- C1 counterexample: a reply whose JSON object omits `risks`.  The claim
requires normalize to fail with "missing or invalid field: risks", but the
code performs no shape validation (an unchecked cast), so it succeeds and
returns a value with no `risks` member at all. -/
theorem C1_counterexample :
    analyzeCore (cl ("\x7b\"explanation\":\"e\",\"safety\":\"s\",\"recommendations\":[]\x7d"))
      = Except.ok (Json.obj [(cl ("explanation"), Json.str (cl ("e"))),
          (cl ("safety"), Json.str (cl ("s"))),
          (cl ("recommendations"), Json.arr [])]) ∧
    objLookup (Json.obj [(cl ("explanation"), Json.str (cl ("e"))),
          (cl ("safety"), Json.str (cl ("s"))),
          (cl ("recommendations"), Json.arr [])]) (cl ("risks")) = none :=
  ⟨rfl, rfl⟩

/-- C1 amended: the normalizer performs no shape validation — whatever the
extracted candidate parses to is returned as-is.  In particular a reply
whose object carries only `explanation`, `safety` and `recommendations`
(no `risks`) normalizes successfully to that partial object instead of
failing with a missing-field error. -/
theorem C1_no_shape_validation (e s2 : JStr) (recs : List JStr)
    (he : ∀ c ∈ e, c ≠ btick) (hsf : ∀ c ∈ s2, c ≠ btick)
    (hr : ∀ x ∈ recs, ∀ c ∈ x, c ≠ btick) :
    analyzeCore (renderObj [(cl ("explanation"), .fs e), (cl ("safety"), .fs s2),
        (cl ("recommendations"), .fa recs)])
      = Except.ok (Json.obj [(cl ("explanation"), Json.str e),
          (cl ("safety"), Json.str s2),
          (cl ("recommendations"), Json.arr (recs.map Json.str))]) := by
  have hnb : btick ∉ renderObj [(cl ("explanation"), FieldVal.fs e),
      (cl ("safety"), FieldVal.fs s2), (cl ("recommendations"), FieldVal.fa recs)] := by
    unfold renderObj
    intro hm
    rcases List.mem_cons.mp hm with e0 | hm
    · exact absurd e0 (by decide)
    rcases List.mem_append.mp hm with hm | hm
    · refine btick_not_mem_sepByComma _ ?_ hm
      intro q hq
      rcases List.mem_map.mp hq with ⟨mem0, hmem0, rfl⟩
      simp only [List.mem_cons, List.not_mem_nil, or_false] at hmem0
      rcases hmem0 with rfl | rfl | rfl
      · exact btick_not_mem_renderMember (by decide) (btick_not_mem_renderFieldVal_fs he)
      · exact btick_not_mem_renderMember (by decide) (btick_not_mem_renderFieldVal_fs hsf)
      · exact btick_not_mem_renderMember (by decide) (btick_not_mem_renderFieldVal_fa hr)
    · simp only [List.mem_cons, List.not_mem_nil, or_false] at hm
      exact absurd hm (by decide)
  have hnd : (([(cl ("explanation"), FieldVal.fs e), (cl ("safety"), FieldVal.fs s2),
      (cl ("recommendations"), FieldVal.fa recs)]).map Prod.fst).Nodup := by
    show ([cl ("explanation"), cl ("safety"), cl ("recommendations")] : List JStr).Nodup
    decide
  have hmain := analyzeCore_obj_prose [] []
    [(cl ("safety"), FieldVal.fs s2), (cl ("recommendations"), FieldVal.fa recs)]
    (cl ("explanation"), FieldVal.fs e) (by simp) (by simp) hnb hnd
  simpa [membersJson, fieldValJson] using hmain

theorem C1_witness :
    (∀ c ∈ cl ("e"), c ≠ btick) ∧ (∀ c ∈ cl ("s"), c ≠ btick) ∧
    analyzeCore (renderObj [(cl ("explanation"), .fs (cl ("e"))),
        (cl ("safety"), .fs (cl ("s"))), (cl ("recommendations"), .fa [])])
      = Except.ok (Json.obj [(cl ("explanation"), Json.str (cl ("e"))),
          (cl ("safety"), Json.str (cl ("s"))),
          (cl ("recommendations"), Json.arr [])]) :=
  ⟨by decide, by decide,
   C1_no_shape_validation (cl ("e")) (cl ("s")) [] (by decide) (by decide)
     (by intro x hx; cases hx)⟩

/-- C3 counterexample: prose containing a brace before the object.  The
claim says any well-formed reply surrounded by prose normalizes to the
embedded record, but the brace scan runs from the first `\x7b` of the
whole reply, so the candidate starts inside the prose and `JSON.parse`
fails with a SyntaxError. -/
theorem C3_counterexample :
    analyzeCore (cl ("Here \x7bit\x7d is: ")
        ++ renderRecord ⟨cl ("e"), cl ("Safe"), [], []⟩)
      = Except.error jsonSyntaxError ∧
    (Except.error jsonSyntaxError : Except JsError Json)
      ≠ Except.ok (recordJson ⟨cl ("e"), cl ("Safe"), [], []⟩) :=
  ⟨rfl, fun h => Except.noConfusion h⟩

/-- C3 amended: pass-through holds for every well-formed reply in which
the prose surrounding the JSON object contains no braces and no backticks
and the record fields contain no backticks: normalize returns the
embedded record field-for-field, with no trimming, casing or
deduplication (any safety string is accepted verbatim). -/
theorem C3_passthrough (r : CommandAnalysis) (p s : JStr)
    (hp : inertProse p) (hs : inertProse s) (hr : recordNoBacktick r) :
    analyzeCore (p ++ renderRecord r ++ s) = Except.ok (recordJson r) := by
  have hnb : btick ∉ renderObj (recordMembers r) := btick_not_mem_renderRecord r hr
  have hnd : ((recordMembers r).map Prod.fst).Nodup := by
    show ([cl ("explanation"), cl ("safety"), cl ("risks"),
      cl ("recommendations")] : List JStr).Nodup
    decide
  have hmain := analyzeCore_obj_prose p s
    [(cl ("safety"), FieldVal.fs r.safety), (cl ("risks"), FieldVal.fa r.risks),
     (cl ("recommendations"), FieldVal.fa r.recommendations)]
    (cl ("explanation"), FieldVal.fs r.explanation) hp hs hnb hnd
  have harg : p ++ renderRecord r ++ s = p ++ (renderObj (recordMembers r) ++ s) := by
    simp [renderRecord]
  rw [harg]
  exact hmain

theorem C3_witness :
    inertProse (cl ("Sure: ")) ∧ inertProse (cl (" Done.")) ∧
    recordNoBacktick ⟨cl ("Lists files."), cl ("Safe"), [],
      [cl ("Run in a sandbox first.")]⟩ ∧
    analyzeCore (cl ("Sure: ")
        ++ renderRecord ⟨cl ("Lists files."), cl ("Safe"), [],
            [cl ("Run in a sandbox first.")]⟩ ++ cl (" Done."))
      = Except.ok (recordJson ⟨cl ("Lists files."), cl ("Safe"), [],
          [cl ("Run in a sandbox first.")]⟩) :=
  ⟨by decide, by decide, by decide,
   C3_passthrough ⟨cl ("Lists files."), cl ("Safe"), [], [cl ("Run in a sandbox first.")]⟩
     (cl ("Sure: ")) (cl (" Done.")) (by decide) (by decide) (by decide)⟩

/-- C4 counterexample: a valid record whose explanation contains three
backticks.  Its serialization embeds them verbatim inside the JSON string,
so the lazy fenced-block regex closes at the backtick run inside the
payload, the candidate is a JSON prefix, and normalization fails — the
round-trip does not return the original record. -/
theorem C4_counterexample :
    analyzeCore (renderFenced true ⟨cl ("a```b"), cl ("s"), [], []⟩)
      = Except.error jsonSyntaxError ∧
    (Except.error jsonSyntaxError : Except JsError Json)
      ≠ Except.ok (recordJson ⟨cl ("a```b"), cl ("s"), [], []⟩) :=
  ⟨rfl, fun h => Except.noConfusion h⟩

/-- C4 amended: for every valid record whose four fields contain no
backticks, rendering it as JSON inside a fenced code block — tagged `json`
or not — and normalizing the result returns a record equal to the
original, exercising the fenced-block extraction path. -/
theorem C4_fenced_roundtrip (tagged : Bool) (r : CommandAnalysis)
    (hr : recordNoBacktick r) :
    analyzeCore (renderFenced tagged r) = Except.ok (recordJson r) := by
  have hnb : btick ∉ renderObj (recordMembers r) := btick_not_mem_renderRecord r hr
  have hnd : ((recordMembers r).map Prod.fst).Nodup := by
    show ([cl ("explanation"), cl ("safety"), cl ("risks"),
      cl ("recommendations")] : List JStr).Nodup
    decide
  have hmain := analyzeCore_obj_fenced tagged
    [(cl ("safety"), FieldVal.fs r.safety), (cl ("risks"), FieldVal.fa r.risks),
     (cl ("recommendations"), FieldVal.fa r.recommendations)]
    (cl ("explanation"), FieldVal.fs r.explanation) hnb hnd
  have harg : renderFenced tagged r
      = (if tagged then cl ("```json\n") else cl ("```\n"))
        ++ (renderObj (recordMembers r) ++ cl ("\n```")) := by
    simp [renderFenced, renderRecord, List.append_assoc]
  rw [harg]
  exact hmain

theorem C4_witness :
    recordNoBacktick ⟨cl ("Lists files."), cl ("Safe"), [cl ("none")], []⟩ ∧
    analyzeCore (renderFenced true ⟨cl ("Lists files."), cl ("Safe"), [cl ("none")], []⟩)
      = Except.ok (recordJson ⟨cl ("Lists files."), cl ("Safe"), [cl ("none")], []⟩) :=
  ⟨by decide,
   C4_fenced_roundtrip true ⟨cl ("Lists files."), cl ("Safe"), [cl ("none")], []⟩
     (by decide)⟩

theorem findFenced_cons_triple (t : JStr) {pre post : JStr}
    (hsplit : splitAtTriple (afterOpen (btick :: btick :: btick :: t)) = some (pre, post)) :
    findFenced (btick :: btick :: btick :: t) = some (jsTrim pre) := by
  show (if startsTriple (btick :: btick :: btick :: t) = true
        then match splitAtTriple (afterOpen (btick :: btick :: btick :: t)) with
          | some pr => some (jsTrim pr.1)
          | none => findFenced (btick :: btick :: t)
        else findFenced (btick :: btick :: t)) = some (jsTrim pre)
  rw [startsTriple_btick]
  simp [hsplit]

/-- C10: a fenced block whose enclosed content is only whitespace yields
an empty (falsy) capture, so the fenced candidate is not used and
extraction falls through to the brace scan over the whole reply. -/
theorem C10_empty_fence_falls_through (p w s : JStr)
    (hp : ∀ c ∈ p, c ≠ btick)
    (hw : ∀ c ∈ w, isJsWs c = true) :
    extractJsonString (p ++ (cl ("```") ++ (w ++ (cl ("```") ++ s))))
      = braceScanString (p ++ (cl ("```") ++ (w ++ (cl ("```") ++ s)))) := by
  have hwnb : ∀ c ∈ w, c ≠ btick := by
    intro c hc e
    have hcw := hw c hc
    rw [e] at hcw
    exact absurd hcw (by decide)
  have htag : startsWithL (cl ("json")) (w ++ (btick :: btick :: btick :: s)) = false := by
    cases w with
    | nil =>
      have hcl2 : cl ("json") = 'j' :: 's' :: 'o' :: 'n' :: [] := rfl
      rw [List.nil_append, hcl2]
      exact startsWithL_cons_ne (by decide)
    | cons c w' =>
      have hcj : ('j' : Char) ≠ c := by
        intro e
        have hcw := hw c (List.mem_cons_self c w')
        rw [← e] at hcw
        exact absurd hcw (by decide)
      have hcl2 : cl ("json") = 'j' :: 's' :: 'o' :: 'n' :: [] := rfl
      rw [hcl2, List.cons_append]
      exact startsWithL_cons_ne hcj
  have hff : findFenced (p ++ (cl ("```") ++ (w ++ (cl ("```") ++ s)))) = some [] := by
    rw [findFenced_skip p hp]
    have hx : cl ("```") ++ (w ++ (cl ("```") ++ s))
        = btick :: btick :: btick :: (w ++ (btick :: btick :: btick :: s)) := rfl
    rw [hx]
    have hdrop : (btick :: btick :: btick :: (w ++ (btick :: btick :: btick :: s))).drop 3
        = w ++ (btick :: btick :: btick :: s) := rfl
    have hao : afterOpen (btick :: btick :: btick :: (w ++ (btick :: btick :: btick :: s)))
        = w ++ (btick :: btick :: btick :: s) := by
      simp only [afterOpen]
      rw [hdrop, htag]
      simp
    have hsplit : splitAtTriple (afterOpen
        (btick :: btick :: btick :: (w ++ (btick :: btick :: btick :: s))))
        = some (w, btick :: btick :: btick :: s) := by
      rw [hao]
      exact splitAtTriple_marker w hwnb s
    rw [findFenced_cons_triple _ hsplit, jsTrim_all_ws hw]
  unfold extractJsonString
  rw [hff]
  simp

theorem C10_witness :
    (∀ c ∈ cl ("See: "), c ≠ btick) ∧ (∀ c ∈ cl ("  "), isJsWs c = true) ∧
    extractJsonString (cl ("See: ")
        ++ (cl ("```") ++ (cl ("  ") ++ (cl ("```") ++ cl (" \x7b\"a\":\"b\"\x7d")))))
      = braceScanString (cl ("See: ")
        ++ (cl ("```") ++ (cl ("  ") ++ (cl ("```") ++ cl (" \x7b\"a\":\"b\"\x7d"))))) :=
  ⟨by decide, by decide,
   C10_empty_fence_falls_through (cl ("See: ")) (cl ("  ")) (cl (" \x7b\"a\":\"b\"\x7d"))
     (by decide) (by decide)⟩

end Cmdc
